import Mathlib

/-!
# Verification of the filesync-rust synchronization engine

A shallow embedding of `src/webdav.rs` (the synchronization core of the
filesync-rust repository) together with proofs about it.

Modelling conventions:
* Timestamps (`chrono::DateTime<Utc>` values and filesystem modification
  times) are naturals; their ordering is what the code compares.
* File contents are lists of naturals (byte strings).
* The WebDAV client is modelled by explicit state: the remote side is a
  map from path to file plus a set of remote collections.  A transfer
  request appends an operation to a trace.  Transport behaviour that the
  code observes only through response statuses is derived from that state
  (a GET of an absent object answers 404, MKCOL answers 201 on creation
  and 405 when the collection already exists), with injectable failures
  (`putDenied`, `mkcolDenied`) for the error paths the code handles.
* The `HashMap` of `SyncMetadata` is an association list whose `insert`
  replaces an existing binding, like `HashMap::insert`.
* `postcard::to_allocvec` / `postcard::from_bytes` (an external crate) are
  modelled by an executable length-prefixed varint codec over the entry
  list, matching postcard's wire discipline (collection length prefix,
  length-prefixed strings); chrono's textual timestamp payload is
  abstracted to a varint-encoded natural.
-/

namespace FileSync

/-! ## Association-list maps (model of `HashMap`) -/

/-- Lookup in an association list, first binding wins (model of
`HashMap::get`). -/
def alookup {β : Type} : List (String × β) → String → Option β
  | [], _ => none
  | (k, v) :: rest, k' => if k' = k then some v else alookup rest k'

/-- Insert into an association list, replacing an existing binding
(model of `HashMap::insert`). -/
def ainsert {β : Type} : List (String × β) → String → β → List (String × β)
  | [], k, v => [(k, v)]
  | (k0, v0) :: rest, k, v =>
      if k = k0 then (k, v) :: rest else (k0, v0) :: ainsert rest k v

/-! ## Varint codec (model of the postcard wire format) -/

/-- LEB128-style varint encoding, fuelled so that it reduces by
structural recursion; `fuel ≥ n` always suffices since the value shrinks
by a factor of 128 each step. -/
def varintEncAux : Nat → Nat → List Nat
  | 0, n => [n % 128]
  | fuel + 1, n =>
      if n < 128 then [n] else (n % 128 + 128) :: varintEncAux fuel (n / 128)

/-- LEB128-style varint encoding of a natural, least significant group
first, high bit marking continuation (postcard's integer encoding). -/
def varintEnc (n : Nat) : List Nat :=
  varintEncAux n n

/-- Varint decoding; returns the value and the remaining bytes. -/
def varintDec : List Nat → Option (Nat × List Nat)
  | [] => none
  | b :: rest =>
      if b < 128 then some (b, rest)
      else
        match varintDec rest with
        | some (m, r2) => some (m * 128 + (b - 128), r2)
        | none => none

/-- Encoding of a string: varint length prefix followed by the characters
(each character's code point as a varint; abstraction of postcard's
length-prefixed UTF-8 strings). -/
def strEnc (s : String) : List Nat :=
  varintEnc s.data.length ++ (s.data.map (fun c => varintEnc c.toNat)).flatten

/-- Decode a fixed number of characters. -/
def charsDec : Nat → List Nat → Option (List Char × List Nat)
  | 0, bs => some ([], bs)
  | k + 1, bs =>
      match varintDec bs with
      | some (c, bs') =>
          match charsDec k bs' with
          | some (cs, bs'') => some (Char.ofNat c :: cs, bs'')
          | none => none
      | none => none

/-- Decode a length-prefixed string. -/
def strDec (bs : List Nat) : Option (String × List Nat) :=
  match varintDec bs with
  | some (k, bs') =>
      match charsDec k bs' with
      | some (cs, bs'') => some (String.mk cs, bs'')
      | none => none
  | none => none

/-! ## `SyncMetadata` and its serialization

`struct SyncMetadata { files: HashMap<String, DateTime<Utc>> }` from
`webdav.rs`, with the `HashMap` as an association list and timestamps as
naturals. -/

structure SyncMetadata where
  files : List (String × Nat)
deriving DecidableEq, Repr

/-- Encoding of one map entry: key string then timestamp. -/
def entryEnc (e : String × Nat) : List Nat :=
  strEnc e.1 ++ varintEnc e.2

/-- Serialization of the whole store (model of `postcard::to_allocvec`):
entry-count prefix, then the entries. -/
def encodeMetadata (m : SyncMetadata) : List Nat :=
  varintEnc m.files.length ++ (m.files.map entryEnc).flatten

/-- Decode a fixed number of map entries. -/
def entriesDec : Nat → List Nat → Option (List (String × Nat) × List Nat)
  | 0, bs => some ([], bs)
  | k + 1, bs =>
      match strDec bs with
      | some (s, bs') =>
          match varintDec bs' with
          | some (t, bs'') =>
              match entriesDec k bs'' with
              | some (es, bs3) => some ((s, t) :: es, bs3)
              | none => none
          | none => none
      | none => none

/-- Deserialization of the store (model of `postcard::from_bytes`);
trailing bytes are ignored, as `from_bytes` does. -/
def decodeMetadata (bs : List Nat) : Option SyncMetadata :=
  match varintDec bs with
  | some (k, bs') =>
      match entriesDec k bs' with
      | some (es, _) => some ⟨es⟩
      | none => none
  | none => none

/-! ## The world state

State visible to the synchronization engine: the local filesystem, the
remote WebDAV store, injectable transport failures, and a trace of the
transfer requests issued. -/

/-- A local file: modification time and content. -/
structure LFile where
  mtime : Nat
  content : List Nat
deriving DecidableEq, Repr

/-- A remote object: last-modified time (as listed by the server) and
content. -/
structure RFile where
  lastModified : Nat
  content : List Nat
deriving DecidableEq, Repr

/-- A transfer request issued to the remote endpoint. -/
inductive Op where
  | Mkcol (p : String)
  | Put (p : String)
  | Get (p : String)
deriving DecidableEq, Repr

/-- The state the engine operates on.  `putDenied` / `mkcolDenied` are the
paths whose PUT / MKCOL requests fail (transport failures the code
handles through `Result`). `now` is the timestamp given to files created
during the run. -/
structure World where
  connOk : Bool
  now : Nat
  localFiles : List (String × LFile)
  localDirs : List String
  remoteFiles : List (String × RFile)
  remoteDirs : List String
  putDenied : List String
  mkcolDenied : List String
  trace : List Op
deriving DecidableEq, Repr

/-- Fixed remote location of the metadata blob (`METADATA_FILENAME`). -/
def METADATA_FILENAME : String := ".syncmetadata"

/-! ## Transfer primitives (`webdav.rs` lines 234-320) -/

/-- `is_local_file_exist`: `Path::new(filepath).exists()` — true for files
and directories. -/
def is_local_file_exist (w : World) (filepath : String) : Bool :=
  (alookup w.localFiles filepath).isSome || w.localDirs.contains filepath

/-- `is_remote_file_exist`: a depth-0 listing whose status is compared to
404; any existing file or collection answers non-404. -/
def is_remote_file_exist (w : World) (filepath : String) : Bool :=
  (alookup w.remoteFiles filepath).isSome || w.remoteDirs.contains filepath

/-- `get_local_file_info`: filesystem stat of a regular file. -/
def get_local_file_info (w : World) (filepath : String) : Except String LFile :=
  match alookup w.localFiles filepath with
  | some f => .ok f
  | none => .error ("No such file " ++ filepath)

/-- `get_remote_file_info`: depth-0 listing; succeeds only when the first
listed entity is a file (a collection or an absent path is an error). -/
def get_remote_file_info (w : World) (filepath : String) : Except String RFile :=
  match alookup w.remoteFiles filepath with
  | some f => .ok f
  | none => .error ("Remote file " ++ filepath ++ " not found")

/-- Split a character list at every `'/'` (the behaviour of
`str::split('/')` and of `String.splitOn "/"` for a one-character
separator). -/
def splitCharsAux : List Char → List Char → List (List Char)
  | [], acc => [acc.reverse]
  | c :: cs, acc =>
      if c = '/' then acc.reverse :: splitCharsAux cs []
      else splitCharsAux cs (c :: acc)

/-- Split a string at every `'/'`. -/
def splitOnSlash (s : String) : List String :=
  (splitCharsAux s.data []).map String.mk

/-- Join character lists with `'/'` between them. -/
def joinSlashAux : List (List Char) → List Char
  | [] => []
  | [x] => x
  | x :: xs => x ++ '/' :: joinSlashAux xs

/-- Join strings with `'/'` between them (`[str].join("/")`). -/
def joinSlash (l : List String) : String :=
  String.mk (joinSlashAux (l.map String.data))

/-- Rust `Path::new(p).parent()` mapped to a string (`None` becomes `""`,
as the source's `unwrap_or("")` does).  Only normalized paths (no
trailing slash) occur in the engine's inputs. -/
def rustParent (p : String) : String :=
  let comps := splitOnSlash p
  if comps.length ≤ 1 then "" else joinSlash comps.dropLast

/-- `str::trim_start_matches('/')`. -/
def trimStartSlashes (s : String) : String :=
  ⟨s.data.dropWhile (fun c => c = '/')⟩

/-- `is_download_possible`: the local parent directory must already
exist. -/
def is_download_possible (w : World) (local_path : String) : Bool :=
  let par := rustParent local_path
  (alookup w.localFiles par).isSome || w.localDirs.contains par

/-- `download_file`: GET of the remote object; on a success status the
local file is created/overwritten with the fetched bytes, otherwise the
function fails.  (In the model the server answers 200 exactly for stored
objects and 404 otherwise.) -/
def download_file (w : World) (local_path server_path : String) :
    World × Except String Unit :=
  let w' := { w with trace := w.trace ++ [Op.Get server_path] }
  match alookup w.remoteFiles server_path with
  | some rf =>
      ({ w' with localFiles := ainsert w'.localFiles local_path ⟨w.now, rf.content⟩ },
        .ok ())
  | none =>
      (w', .error ("Download " ++ server_path ++ " request unsuccess"))

/-- Status the server answers to a MKCOL request: 403 for a denied path,
405 when the collection already exists, 201 on creation. -/
def mkcolStatus (w : World) (p : String) : Nat :=
  if w.mkcolDenied.contains p then 403
  else if w.remoteDirs.contains p then 405
  else 201

/-- `mkcol_raw`: issue the request, record it, create the collection on
201. -/
def mkcol (w : World) (p : String) : World × Nat :=
  let st := mkcolStatus w p
  let w' := { w with trace := w.trace ++ [Op.Mkcol p] }
  if st = 201 then ({ w' with remoteDirs := w'.remoteDirs ++ [p] }, st)
  else (w', st)

/-- The loop body of `ensure_remote_directories`: walk the path segments,
extending `current_path` one segment at a time and issuing MKCOL; any
status other than 405 and 201 aborts. -/
def ensureStep : World → List String → String → World × Except String Unit
  | w, [], _ => (w, .ok ())
  | w, part :: rest, current =>
      if part = "" then ensureStep w rest current
      else
        let current' := current ++ part ++ "/"
        let m := mkcol w current'
        if m.2 ≠ 405 ∧ m.2 ≠ 201 then
          (m.1, .error "Unexpected status while making new remote dirs")
        else ensureStep m.1 rest current'

/-- `ensure_remote_directories`: create every intermediate remote
collection of `server_path`, from the root downward. -/
def ensure_remote_directories (w : World) (server_path : String) :
    World × Except String Unit :=
  let dirPath := rustParent server_path
  if dirPath = "" ∨ dirPath = "/" then (w, .ok ())
  else ensureStep w (splitOnSlash (trimStartSlashes dirPath)) "/"

/-- A PUT request: recorded in the trace; a denied path fails, otherwise
the remote object is created/overwritten. -/
def putRequest (w : World) (server_path : String) (content : List Nat) :
    World × Except String Unit :=
  let w' := { w with trace := w.trace ++ [Op.Put server_path] }
  if w.putDenied.contains server_path then
    (w', .error ("Put failed " ++ server_path))
  else
    ({ w' with remoteFiles := ainsert w'.remoteFiles server_path ⟨w.now, content⟩ },
      .ok ())

/-- `upload_file`: ensure the remote directories, read the local file,
PUT its content. -/
def upload_file (w : World) (local_path server_path : String) :
    World × Except String Unit :=
  match ensure_remote_directories w server_path with
  | (w', .error e) => (w', .error e)
  | (w', .ok _) =>
      match alookup w'.localFiles local_path with
      | none => (w', .error ("Read failed " ++ local_path))
      | some lf => putRequest w' server_path lf.content

/-! ## Comparator (`compare_modified_time`, lines 322-336) -/

/-- The fallback of `compare_modified_time`: compare the local
modification time to the remote object's live last-modified time. -/
def compare_fallback (w : World) (lf : LFile) (server_path : String) :
    Except String Ordering :=
  match get_remote_file_info w server_path with
  | .ok listfile => .ok (compare lf.mtime listfile.lastModified)
  | .error e => .error e

/-- `compare_modified_time`: when the loaded metadata holds a timestamp
for `server_path`, compare the local modification time to that recorded
timestamp; otherwise fall back to the remote object's live last-modified
time. -/
def compare_modified_time (w : World) (local_path server_path : String)
    (syncmetadata : Option SyncMetadata) : Except String Ordering :=
  match get_local_file_info w local_path with
  | .error e => .error e
  | .ok lf =>
      match syncmetadata with
      | some m =>
          match alookup m.files server_path with
          | some datetime => .ok (compare lf.mtime datetime)
          | none => compare_fallback w lf server_path
      | none => compare_fallback w lf server_path

/-! ## Outcomes and messages (`state.rs`) -/

/-- `SyncState` from `state.rs`. -/
inductive SyncState where
  | Synchronized
  | UnsynchronizedServer
  | UnsynchronizedDevice
  | CantSynchronize
deriving DecidableEq, Repr

/-- The messages the engine sends on its channel (the subset of
`Message` that `webdav.rs` produces). -/
inductive Msg where
  | ShowError (s : String)
  | StopSynchronize
  | StopSynchronizeCheck
  | UpdatePairSyncState (p : String) (st : SyncState)
deriving DecidableEq, Repr

/-- The `(local_path, SyncOutcome)` events of a message list. -/
def outcomes (msgs : List Msg) : List (String × SyncState) :=
  msgs.filterMap fun m =>
    match m with
    | .UpdatePairSyncState p st => some (p, st)
    | _ => none

/-- True when the message list carries no diagnostic. -/
def noErrors (msgs : List Msg) : Bool :=
  msgs.all fun m =>
    match m with
    | .ShowError _ => false
    | _ => true

/-! ## Per-pair synchronization (`synchronize_file`, lines 75-110) -/

/-- `synchronize_file` in `Mutate` mode: classify the pair and perform the
transfer; returns the updated world, the messages sent, and the
`Result`. -/
def synchronize_file (w : World) (local_path server_path : String)
    (syncmetadata : Option SyncMetadata) : World × List Msg × Except String Unit :=
  if is_local_file_exist w local_path && is_remote_file_exist w server_path then
    match compare_modified_time w local_path server_path syncmetadata with
    | .error e => (w, [], .error e)
    | .ok Ordering.gt =>
        match upload_file w local_path server_path with
        | (w', .error e) => (w', [], .error e)
        | (w', .ok _) =>
            (w', [Msg.UpdatePairSyncState local_path SyncState.Synchronized], .ok ())
    | .ok Ordering.lt =>
        match download_file w local_path server_path with
        | (w', .error e) => (w', [], .error e)
        | (w', .ok _) =>
            (w', [Msg.UpdatePairSyncState local_path SyncState.Synchronized], .ok ())
    | .ok Ordering.eq =>
        (w, [Msg.UpdatePairSyncState local_path SyncState.Synchronized], .ok ())
  else if is_local_file_exist w local_path && !is_remote_file_exist w server_path then
    match upload_file w local_path server_path with
    | (w', .error e) => (w', [], .error e)
    | (w', .ok _) =>
        (w', [Msg.UpdatePairSyncState local_path SyncState.Synchronized], .ok ())
  else if !is_local_file_exist w local_path && is_remote_file_exist w server_path then
    if is_download_possible w local_path then
      match download_file w local_path server_path with
      | (w', .error e) => (w', [], .error e)
      | (w', .ok _) =>
          (w', [Msg.UpdatePairSyncState local_path SyncState.Synchronized], .ok ())
    else
      (w, [Msg.UpdatePairSyncState local_path SyncState.CantSynchronize],
        .error ("Not all dirs in path exist " ++ local_path))
  else
    (w, [Msg.UpdatePairSyncState local_path SyncState.CantSynchronize],
      .error ("Both file don't exist " ++ local_path ++ " <=> " ++ server_path))

/-- `synchronize_files`: the pair loop; a per-pair failure is caught,
turned into one `ShowError` diagnostic, and the loop continues. -/
def synchronize_files (w : World) (pairs : List (String × String))
    (syncmetadata : Option SyncMetadata) : World × List Msg :=
  match pairs with
  | [] => (w, [])
  | (key, value) :: rest =>
      let r := synchronize_file w key value syncmetadata
      let msgs :=
        match r.2.2 with
        | .ok _ => r.2.1
        | .error e => r.2.1 ++ [Msg.ShowError e]
      let rr := synchronize_files r.1 rest syncmetadata
      (rr.1, msgs ++ rr.2)

/-! ## Metadata store persistence (lines 192-230) -/

/-- The insertion loop of `save_and_upload_metadata`: for every pair whose
local file can be stat'ed, record its current modification time against
the pair's remote path. -/
def updateMetadataFiles (w : World) (pairs : List (String × String))
    (files : List (String × Nat)) : List (String × Nat) :=
  match pairs with
  | [] => files
  | (local_path, server_path) :: rest =>
      match alookup w.localFiles local_path with
      | some lf => updateMetadataFiles w rest (ainsert files server_path lf.mtime)
      | none => updateMetadataFiles w rest files

/-- `save_and_upload_metadata`: refresh the store from current local
modification times, serialize it, and upload it to the fixed remote
location.  (The detour through a temp file that is written, uploaded and
removed is modelled as uploading the serialized bytes directly.) -/
def save_and_upload_metadata (w : World) (pairs : List (String × String))
    (syncmetadata : Option SyncMetadata) : World × Except String Unit :=
  let files := updateMetadataFiles w pairs (syncmetadata.getD ⟨[]⟩).files
  let data := encodeMetadata ⟨files⟩
  match ensure_remote_directories w METADATA_FILENAME with
  | (w', .error e) => (w', .error e)
  | (w', .ok _) => putRequest w' METADATA_FILENAME data

/-- `load_metadata` composed with the `.ok()` at its call sites: download
the blob from the fixed remote location and deserialize it; any failure
yields `none` ("no history").  (The temp file is created and removed
within the call; its net effect on the local filesystem is none.) -/
def load_metadata (w : World) : World × Option SyncMetadata :=
  let w' := { w with trace := w.trace ++ [Op.Get METADATA_FILENAME] }
  match alookup w.remoteFiles METADATA_FILENAME with
  | some f => (w', decodeMetadata f.content)
  | none => (w', none)

/-! ## Orchestrator runs (`run_sync`, lines 24-63; `check_sync`,
lines 114-147) -/

/-- `check_connection`: the depth-0 listing of the remote root. -/
def check_connection (w : World) : Bool :=
  w.connOk

/-- `run_sync` (`Mutate` mode), from the connectivity preflight on (client
construction is outside the model): load the metadata, run the pair
loop, save and upload the refreshed store, signal termination. -/
def run_sync (w : World) (pairs : List (String × String)) : World × List Msg :=
  if !check_connection w then
    (w, [Msg.ShowError "Can't open connection", Msg.StopSynchronize])
  else
    let l := load_metadata w
    let s := synchronize_files l.1 pairs l.2
    let u := save_and_upload_metadata s.1 pairs l.2
    let msgs :=
      match u.2 with
      | .ok _ => s.2
      | .error e => s.2 ++ [Msg.ShowError e]
    (u.1, msgs ++ [Msg.StopSynchronize])

/-- `synchronize_file_check` (`ReportOnly` mode): classify only, report
the divergence direction, transfer nothing. -/
def synchronize_file_check (w : World) (local_path server_path : String)
    (syncmetadata : Option SyncMetadata) : World × List Msg × Except String Unit :=
  if is_local_file_exist w local_path && is_remote_file_exist w server_path then
    match compare_modified_time w local_path server_path syncmetadata with
    | .error e => (w, [], .error e)
    | .ok Ordering.gt =>
        (w, [Msg.UpdatePairSyncState local_path SyncState.UnsynchronizedServer], .ok ())
    | .ok Ordering.lt =>
        (w, [Msg.UpdatePairSyncState local_path SyncState.UnsynchronizedDevice], .ok ())
    | .ok Ordering.eq =>
        (w, [Msg.UpdatePairSyncState local_path SyncState.Synchronized], .ok ())
  else if is_local_file_exist w local_path && !is_remote_file_exist w server_path then
    (w, [Msg.UpdatePairSyncState local_path SyncState.UnsynchronizedServer], .ok ())
  else if !is_local_file_exist w local_path && is_remote_file_exist w server_path then
    if is_download_possible w local_path then
      (w, [Msg.UpdatePairSyncState local_path SyncState.UnsynchronizedDevice], .ok ())
    else
      (w, [Msg.UpdatePairSyncState local_path SyncState.CantSynchronize],
        .error ("Not all dirs in path exist " ++ local_path))
  else
    (w, [Msg.UpdatePairSyncState local_path SyncState.CantSynchronize],
      .error ("Both file don't exist " ++ local_path ++ " <=> " ++ server_path))

/-- `synchronize_files_check`: the `ReportOnly` pair loop. -/
def synchronize_files_check (w : World) (pairs : List (String × String))
    (syncmetadata : Option SyncMetadata) : World × List Msg :=
  match pairs with
  | [] => (w, [])
  | (key, value) :: rest =>
      let r := synchronize_file_check w key value syncmetadata
      let msgs :=
        match r.2.2 with
        | .ok _ => r.2.1
        | .error e => r.2.1 ++ [Msg.ShowError e]
      let rr := synchronize_files_check r.1 rest syncmetadata
      (rr.1, msgs ++ rr.2)

/-- `check_sync` (`ReportOnly` mode), from the connectivity preflight
on. -/
def check_sync (w : World) (pairs : List (String × String)) : World × List Msg :=
  if !check_connection w then
    (w, [Msg.ShowError "Can't open connection", Msg.StopSynchronizeCheck])
  else
    let l := load_metadata w
    let s := synchronize_files_check l.1 pairs l.2
    (s.1, s.2 ++ [Msg.StopSynchronizeCheck])

/-! ## Spec-side definitions (refinement targets)

These follow the wording of the specification's decision table (§4.1),
to be compared against the code-derived definitions above. -/

/-- Spec §4.1: the classification of a pair. -/
inductive Classification where
  | LocalNewer
  | RemoteNewer
  | InSync
  | LocalOnly
  | RemoteOnly
  | Neither
deriving DecidableEq, Repr

/-- Spec §4.1 / glossary "Reference timestamp": the recorded metadata
timestamp for the remote path when the loaded metadata has an entry for
it, else the remote object's live last-modified time. -/
def specReferenceTime (syncmetadata : Option SyncMetadata) (server_path : String)
    (liveRemote : Nat) : Nat :=
  match syncmetadata with
  | some m =>
      match alookup m.files server_path with
      | some t => t
      | none => liveRemote
  | none => liveRemote

/-- Spec §4.1, rule 1: "Local time > reference time → LocalNewer.
Local time < reference time → RemoteNewer. Equal → InSync." -/
def specClassifyBothExist (localTime refTime : Nat) : Classification :=
  if localTime > refTime then .LocalNewer
  else if localTime < refTime then .RemoteNewer
  else .InSync

/-- How `synchronize_file` reads the comparator's `Ordering`
(`Greater` ↦ upload = `LocalNewer`, `Less` ↦ download = `RemoteNewer`,
equality ↦ `InSync`). -/
def classificationOfOrdering : Ordering → Classification
  | .gt => .LocalNewer
  | .lt => .RemoteNewer
  | .eq => .InSync

/-! ## Derived notions used by the theorems -/

/-- The world components a run never touches: connectivity, the clock,
the local directory tree and the failure injections. -/
def BaseEq (w w' : World) : Prop :=
  w'.connOk = w.connOk ∧ w'.now = w.now ∧ w'.localDirs = w.localDirs ∧
  w'.putDenied = w.putDenied ∧ w'.mkcolDenied = w.mkcolDenied

/-- Only remote collections and the trace differ. -/
def DirsOnly (w w' : World) : Prop :=
  BaseEq w w' ∧ w'.localFiles = w.localFiles ∧ w'.remoteFiles = w.remoteFiles

/-- Every pair's local file exists, its remote side exists, and the
metadata records exactly the local modification time. -/
def InSyncAll (w : World) (md : SyncMetadata) (pairs : List (String × String)) : Prop :=
  ∀ pr ∈ pairs, ∃ lf, alookup w.localFiles pr.1 = some lf ∧
    is_remote_file_exist w pr.2 = true ∧ alookup md.files pr.2 = some lf.mtime

/-- The sequence of MKCOL target paths `ensure_remote_directories` walks
for a given directory path: each step appends one non-empty segment and a
slash. -/
def chainOf : List String → String → List String
  | [], _ => []
  | p :: rest, cur =>
      if p = "" then chainOf rest cur
      else (cur ++ p ++ "/") :: chainOf rest (cur ++ p ++ "/")

/-- The full MKCOL call list of an upload to `server_path`. -/
def mkcolCalls (server_path : String) : List String :=
  let dirPath := rustParent server_path
  if dirPath = "" ∨ dirPath = "/" then []
  else chainOf (splitOnSlash (trimStartSlashes dirPath)) "/"

/-- Strict parent-to-child order: starting from `cur`, every path in the
list extends its predecessor by exactly one non-empty segment and a
trailing slash. -/
def StepChain : String → List String → Prop
  | _, [] => True
  | cur, x :: xs => (∃ seg, seg ≠ "" ∧ x = cur ++ seg ++ "/") ∧ StepChain x xs

/-! ## Concrete worlds for witnesses and counterexamples -/

/-- Both sides exist, metadata has a (stale) entry. -/
def wBoth : World :=
  { connOk := true, now := 50,
    localFiles := [("/tmp/a.txt", ⟨7, [1, 2]⟩)],
    localDirs := ["/", "/tmp"],
    remoteFiles := [("/docs/a.txt", ⟨9, [3]⟩)],
    remoteDirs := ["/docs/"],
    putDenied := [], mkcolDenied := [], trace := [] }

/-- A local-only pair whose upload PUT is denied. -/
def wPutFail : World :=
  { connOk := true, now := 50,
    localFiles := [("a", ⟨5, [1]⟩)],
    localDirs := ["/"],
    remoteFiles := [], remoteDirs := [],
    putDenied := ["b"], mkcolDenied := [], trace := [] }

/-- A local-only pair `("c", "d")` whose upload PUT is denied. -/
def wPutFail2 : World :=
  { connOk := true, now := 60,
    localFiles := [("c", ⟨8, [2]⟩)],
    localDirs := ["/"],
    remoteFiles := [], remoteDirs := [],
    putDenied := ["d"], mkcolDenied := [], trace := [] }

/-- A local-only pair `("e", "f")` whose upload PUT is denied. -/
def wPutFail3 : World :=
  { connOk := true, now := 70,
    localFiles := [("e", ⟨4, [9]⟩)],
    localDirs := ["/"],
    remoteFiles := [], remoteDirs := [],
    putDenied := ["f"], mkcolDenied := [], trace := [] }

/-- Neither side of the pair `("p", "q")` exists. -/
def wNeither : World :=
  { connOk := true, now := 30,
    localFiles := [], localDirs := ["/"],
    remoteFiles := [], remoteDirs := [],
    putDenied := [], mkcolDenied := [], trace := [] }

/-- A healthy local-only pair, everything permitted. -/
def wHealthy : World :=
  { connOk := true, now := 40,
    localFiles := [("/tmp/x.txt", ⟨11, [5, 6]⟩)],
    localDirs := ["/", "/tmp"],
    remoteFiles := [], remoteDirs := [],
    putDenied := [], mkcolDenied := [], trace := [] }

/-- An upload whose intermediate directory creation is denied. -/
def wMkcolFail : World :=
  { connOk := true, now := 20,
    localFiles := [("/tmp/y.txt", ⟨3, [7]⟩)],
    localDirs := ["/", "/tmp"],
    remoteFiles := [], remoteDirs := [],
    putDenied := [], mkcolDenied := ["/deep/"], trace := [] }

/-- A healthy local-only pair, but the metadata blob's own upload is
denied: the pair loop succeeds while the end-of-run save fails. -/
def wMetaPutFail : World :=
  { connOk := true, now := 45,
    localFiles := [("/tmp/w.txt", ⟨13, [4]⟩)],
    localDirs := ["/", "/tmp"],
    remoteFiles := [], remoteDirs := [],
    putDenied := [".syncmetadata"], mkcolDenied := [], trace := [] }

/-! # Theorems -/

/-! ## Association-list map lemmas -/

theorem alookup_ainsert_self {β : Type} (l : List (String × β)) (k : String) (v : β) :
    alookup (ainsert l k v) k = some v := by
  induction l with
  | nil => simp [ainsert, alookup]
  | cons hd tl ih =>
      obtain ⟨k0, v0⟩ := hd
      by_cases h : k = k0
      · simp [ainsert, alookup, h]
      · simp [ainsert, alookup, h, ih]

theorem alookup_ainsert_ne {β : Type} (l : List (String × β)) (k k' : String) (v : β)
    (h : k' ≠ k) : alookup (ainsert l k v) k' = alookup l k' := by
  induction l with
  | nil => simp [ainsert, alookup, h]
  | cons hd tl ih =>
      obtain ⟨k0, v0⟩ := hd
      by_cases h0 : k = k0
      · subst h0
        simp [ainsert, alookup, h]
      · by_cases h1 : k' = k0
        · simp [ainsert, alookup, h0, h1]
        · simp [ainsert, alookup, h0, h1, ih]

theorem alookup_ainsert_isSome {β : Type} (l : List (String × β)) (k k' : String) (v : β)
    (h : (alookup l k').isSome) : (alookup (ainsert l k v) k').isSome := by
  by_cases hk : k' = k
  · subst hk; simp [alookup_ainsert_self]
  · rwa [alookup_ainsert_ne l k k' v hk]

/-! ## Codec round-trip lemmas -/

theorem varintDec_varintEncAux (fuel : Nat) : ∀ (n : Nat) (rest : List Nat),
    n ≤ fuel → varintDec (varintEncAux fuel n ++ rest) = some (n, rest) := by
  induction fuel with
  | zero =>
      intro n rest hn
      have hn0 : n = 0 := by omega
      subst hn0
      simp [varintEncAux, varintDec]
  | succ fuel ih =>
      intro n rest hn
      by_cases h : n < 128
      · have he : varintEncAux (fuel + 1) n = [n] := by
          simp [varintEncAux, h]
        rw [he, List.singleton_append]
        simp [varintDec, h]
      · have he : varintEncAux (fuel + 1) n
            = (n % 128 + 128) :: varintEncAux fuel (n / 128) := by
          simp [varintEncAux, h]
        rw [he, List.cons_append]
        have hge : ¬ (n % 128 + 128 < 128) := by omega
        have hfu : n / 128 ≤ fuel := by
          have := Nat.div_lt_self (show 0 < n by omega) (show 1 < 128 by omega)
          omega
        have hrec := ih (n / 128) rest hfu
        simp only [varintDec, hge, if_false, hrec]
        have hval : n / 128 * 128 + (n % 128 + 128 - 128) = n := by omega
        rw [hval]

theorem varintDec_varintEnc (n : Nat) (rest : List Nat) :
    varintDec (varintEnc n ++ rest) = some (n, rest) :=
  varintDec_varintEncAux n n rest (Nat.le_refl n)

theorem charsDec_enc (cs : List Char) (rest : List Nat) :
    charsDec cs.length ((cs.map (fun c => varintEnc c.toNat)).flatten ++ rest)
      = some (cs, rest) := by
  induction cs with
  | nil => simp [charsDec]
  | cons c tl ih =>
      simp only [List.map_cons, List.flatten_cons, List.append_assoc, List.length_cons,
        charsDec, varintDec_varintEnc]
      rw [ih]
      simp [Char.ofNat_toNat]

theorem strDec_strEnc (s : String) (rest : List Nat) :
    strDec (strEnc s ++ rest) = some (s, rest) := by
  unfold strEnc strDec
  rw [List.append_assoc, varintDec_varintEnc]
  simp only [charsDec_enc]

theorem entriesDec_enc (es : List (String × Nat)) (rest : List Nat) :
    entriesDec es.length ((es.map entryEnc).flatten ++ rest) = some (es, rest) := by
  induction es with
  | nil => simp [entriesDec]
  | cons e tl ih =>
      obtain ⟨s, t⟩ := e
      simp only [List.map_cons, List.flatten_cons, List.length_cons, entriesDec, entryEnc,
        List.append_assoc, strDec_strEnc, varintDec_varintEnc]
      rw [ih]

/-- Serialize-then-deserialize reproduces the store exactly. -/
theorem decodeMetadata_encodeMetadata (m : SyncMetadata) :
    decodeMetadata (encodeMetadata m) = some m := by
  unfold decodeMetadata encodeMetadata
  rw [show (m.files.map entryEnc).flatten
        = (m.files.map entryEnc).flatten ++ [] by simp, ← List.append_assoc]
  rw [List.append_assoc, varintDec_varintEnc]
  simp only [entriesDec_enc]

/-! ## Transfer-primitive effect lemmas -/

theorem putRequest_spec (w : World) (sp : String) (c : List Nat) :
    BaseEq w (putRequest w sp c).1
    ∧ (putRequest w sp c).1.localFiles = w.localFiles
    ∧ (putRequest w sp c).1.remoteDirs = w.remoteDirs
    ∧ (putRequest w sp c).1.trace = w.trace ++ [Op.Put sp]
    ∧ (∀ q, q ≠ sp → alookup (putRequest w sp c).1.remoteFiles q = alookup w.remoteFiles q)
    ∧ (sp ∉ w.putDenied →
        (putRequest w sp c).2 = .ok ()
        ∧ alookup (putRequest w sp c).1.remoteFiles sp = some ⟨w.now, c⟩)
    ∧ (sp ∈ w.putDenied →
        (putRequest w sp c).1.remoteFiles = w.remoteFiles
        ∧ ∃ e, (putRequest w sp c).2 = .error e) := by
  unfold putRequest BaseEq
  by_cases h : sp ∈ w.putDenied
  · simp [h]
  · simp [h, alookup_ainsert_self, alookup_ainsert_ne]
    intro q hq
    exact alookup_ainsert_ne _ _ _ _ hq

theorem download_file_spec (w : World) (lp sp : String) :
    BaseEq w (download_file w lp sp).1
    ∧ (download_file w lp sp).1.remoteFiles = w.remoteFiles
    ∧ (download_file w lp sp).1.remoteDirs = w.remoteDirs
    ∧ (download_file w lp sp).1.trace = w.trace ++ [Op.Get sp]
    ∧ (∀ p, p ≠ lp → alookup (download_file w lp sp).1.localFiles p = alookup w.localFiles p)
    ∧ (alookup w.remoteFiles sp = none →
        (download_file w lp sp).1.localFiles = w.localFiles
        ∧ ∃ e, (download_file w lp sp).2 = .error e)
    ∧ (∀ rf, alookup w.remoteFiles sp = some rf →
        (download_file w lp sp).2 = .ok ()
        ∧ alookup (download_file w lp sp).1.localFiles lp = some ⟨w.now, rf.content⟩) := by
  unfold download_file BaseEq
  rcases hR : alookup w.remoteFiles sp with _ | rf
  · simp [hR]
  · simp [hR, alookup_ainsert_self]
    intro p hp
    exact alookup_ainsert_ne _ _ _ _ hp

theorem mkcol_spec (w : World) (p : String) :
    BaseEq w (mkcol w p).1
    ∧ (mkcol w p).1.localFiles = w.localFiles
    ∧ (mkcol w p).1.remoteFiles = w.remoteFiles
    ∧ (mkcol w p).1.trace = w.trace ++ [Op.Mkcol p]
    ∧ (mkcol w p).2 = mkcolStatus w p
    ∧ (∀ d ∈ w.remoteDirs, d ∈ (mkcol w p).1.remoteDirs) := by
  unfold mkcol BaseEq
  by_cases h : mkcolStatus w p = 201 <;> simp [h]
  exact fun d hd => Or.inl hd

theorem ensureStep_cons_eq (w : World) (p : String) (rest : List String) (cur : String)
    (hp : ¬ p = "") (w1 : World) (st : Nat) (hM : mkcol w (cur ++ p ++ "/") = (w1, st)) :
    ensureStep w (p :: rest) cur
      = if st ≠ 405 ∧ st ≠ 201 then
          (w1, .error "Unexpected status while making new remote dirs")
        else ensureStep w1 rest (cur ++ p ++ "/") := by
  conv_lhs => rw [ensureStep]
  rw [if_neg hp]
  simp only [hM]

theorem ensureStep_state (parts : List String) : ∀ (w : World) (cur : String),
    BaseEq w (ensureStep w parts cur).1
    ∧ (ensureStep w parts cur).1.localFiles = w.localFiles
    ∧ (ensureStep w parts cur).1.remoteFiles = w.remoteFiles
    ∧ (∀ d ∈ w.remoteDirs, d ∈ (ensureStep w parts cur).1.remoteDirs)
    ∧ ∃ ms, (ensureStep w parts cur).1.trace = w.trace ++ ms
        ∧ ∀ op ∈ ms, ∃ q, op = Op.Mkcol q := by
  induction parts with
  | nil =>
      intro w cur
      refine ⟨⟨rfl, rfl, rfl, rfl, rfl⟩, rfl, rfl, fun d hd => hd, [],
        by simp [ensureStep], by simp⟩
  | cons p rest ih =>
      intro w cur
      by_cases hp : p = ""
      · simpa [ensureStep, hp] using ih w cur
      · rcases hM : mkcol w (cur ++ p ++ "/") with ⟨w1, st⟩
        have hm := mkcol_spec w (cur ++ p ++ "/")
        rw [hM] at hm
        obtain ⟨⟨hc, hn, hld, hpd, hmd⟩, hlf, hrf, htr, hst, hdm⟩ := hm
        rw [ensureStep_cons_eq w p rest cur hp w1 st hM]
        by_cases hbad : st ≠ 405 ∧ st ≠ 201
        · rw [if_pos hbad]
          exact ⟨⟨hc, hn, hld, hpd, hmd⟩, hlf, hrf, hdm,
            [Op.Mkcol (cur ++ p ++ "/")], htr, by simp⟩
        · rw [if_neg hbad]
          obtain ⟨⟨ic, inn, ild, ipd, imd⟩, ilf, irf, idm, ms, itr, ims⟩ :=
            ih w1 (cur ++ p ++ "/")
          refine ⟨⟨ic.trans hc, inn.trans hn, ild.trans hld, ipd.trans hpd, imd.trans hmd⟩,
            ilf.trans hlf, irf.trans hrf, fun d hd => idm d (hdm d hd),
            Op.Mkcol (cur ++ p ++ "/") :: ms, ?_, ?_⟩
          · rw [itr, htr]
            simp
          · intro op hop
            rcases List.mem_cons.mp hop with hop | hop
            · exact ⟨_, hop⟩
            · exact ims op hop

theorem ensureStep_ok (parts : List String) : ∀ (w : World) (cur : String),
    (∀ q ∈ chainOf parts cur, q ∉ w.mkcolDenied) →
    (ensureStep w parts cur).2 = .ok ()
    ∧ (ensureStep w parts cur).1.trace = w.trace ++ (chainOf parts cur).map Op.Mkcol := by
  induction parts with
  | nil => intro w cur _; simp [ensureStep, chainOf]
  | cons p rest ih =>
      intro w cur hden
      by_cases hp : p = ""
      · simpa [ensureStep, chainOf, hp] using ih w cur (by simpa [chainOf, hp] using hden)
      · rcases hM : mkcol w (cur ++ p ++ "/") with ⟨w1, st⟩
        have hm := mkcol_spec w (cur ++ p ++ "/")
        rw [hM] at hm
        obtain ⟨⟨hc, hn, hld, hpd, hmd⟩, hlf, hrf, htr, hst, -⟩ := hm
        have hcur : (cur ++ p ++ "/") ∉ w.mkcolDenied :=
          hden (cur ++ p ++ "/") (by simp [chainOf, hp])
        have hstv : st = 405 ∨ st = 201 := by
          have hst' : st = mkcolStatus w (cur ++ p ++ "/") := hst
          rw [hst']
          unfold mkcolStatus
          have hnc : ¬ w.mkcolDenied.contains (cur ++ p ++ "/") = true := by
            simpa using hcur
          rw [if_neg hnc]
          by_cases hd : w.remoteDirs.contains (cur ++ p ++ "/") = true
          · rw [if_pos hd]
            exact Or.inl rfl
          · rw [if_neg hd]
            exact Or.inr rfl
        have hok : ¬ (st ≠ 405 ∧ st ≠ 201) := by
          rcases hstv with h | h <;> simp [h]
        have ihw := ih w1 (cur ++ p ++ "/") (by
          intro q hq
          rw [hmd]
          exact hden q (by simp [chainOf, hp, hq]))
        rw [ensureStep_cons_eq w p rest cur hp w1 st hM, if_neg hok]
        refine ⟨ihw.1, ?_⟩
        rw [ihw.2, htr]
        simp [chainOf, hp]

theorem ensureStep_err (parts : List String) : ∀ (w : World) (cur : String),
    (∃ q ∈ chainOf parts cur, q ∈ w.mkcolDenied) →
    ∃ e, (ensureStep w parts cur).2 = .error e := by
  induction parts with
  | nil => intro w cur h; simp [chainOf] at h
  | cons p rest ih =>
      intro w cur hden
      by_cases hp : p = ""
      · simp only [chainOf, hp, ite_true] at hden
        simpa [ensureStep, hp] using ih w cur hden
      · rcases hM : mkcol w (cur ++ p ++ "/") with ⟨w1, st⟩
        have hm := mkcol_spec w (cur ++ p ++ "/")
        rw [hM] at hm
        obtain ⟨⟨hc, hn, hld, hpd, hmd⟩, hlf, hrf, htr, hst, -⟩ := hm
        rw [ensureStep_cons_eq w p rest cur hp w1 st hM]
        by_cases hcur : (cur ++ p ++ "/") ∈ w.mkcolDenied
        · have hstv : st = 403 := by
            have hst' : st = mkcolStatus w (cur ++ p ++ "/") := hst
            rw [hst']
            unfold mkcolStatus
            have hcc : w.mkcolDenied.contains (cur ++ p ++ "/") = true := by
              simpa using hcur
            rw [if_pos hcc]
          have hbad : st ≠ 405 ∧ st ≠ 201 := by omega
          exact ⟨"Unexpected status while making new remote dirs", by rw [if_pos hbad]⟩
        · rcases hden with ⟨q, hq, hqd⟩
          simp only [chainOf, hp, if_false, List.mem_cons, ite_false] at hq
          rcases hq with rfl | hq
          · exact absurd hqd hcur
          · by_cases hbad : st ≠ 405 ∧ st ≠ 201
            · exact ⟨"Unexpected status while making new remote dirs", by rw [if_pos hbad]⟩
            · rw [if_neg hbad]
              exact ih w1 (cur ++ p ++ "/") ⟨q, hq, by rw [hmd]; exact hqd⟩

theorem ensure_state (w : World) (sp : String) :
    BaseEq w (ensure_remote_directories w sp).1
    ∧ (ensure_remote_directories w sp).1.localFiles = w.localFiles
    ∧ (ensure_remote_directories w sp).1.remoteFiles = w.remoteFiles
    ∧ (∀ d ∈ w.remoteDirs, d ∈ (ensure_remote_directories w sp).1.remoteDirs)
    ∧ ∃ ms, (ensure_remote_directories w sp).1.trace = w.trace ++ ms
        ∧ ∀ op ∈ ms, ∃ q, op = Op.Mkcol q := by
  unfold ensure_remote_directories
  by_cases h : rustParent sp = "" ∨ rustParent sp = "/"
  · refine ⟨⟨?_, ?_, ?_, ?_, ?_⟩, ?_, ?_, fun d hd => ?_, [], ?_, ?_⟩ <;> simp [h]
    exact hd
  · simpa [h] using ensureStep_state (splitOnSlash (trimStartSlashes (rustParent sp))) w "/"

theorem ensure_ok (w : World) (sp : String)
    (h : ∀ q ∈ mkcolCalls sp, q ∉ w.mkcolDenied) :
    (ensure_remote_directories w sp).2 = .ok ()
    ∧ (ensure_remote_directories w sp).1.trace
        = w.trace ++ (mkcolCalls sp).map Op.Mkcol := by
  unfold ensure_remote_directories mkcolCalls
  unfold mkcolCalls at h
  by_cases hd : rustParent sp = "" ∨ rustParent sp = "/"
  · simp [hd]
  · simp only [hd, ite_false] at h ⊢
    exact ensureStep_ok (splitOnSlash (trimStartSlashes (rustParent sp))) w "/" h

theorem ensure_err (w : World) (sp : String)
    (h : ∃ q ∈ mkcolCalls sp, q ∈ w.mkcolDenied) :
    ∃ e, (ensure_remote_directories w sp).2 = .error e := by
  unfold ensure_remote_directories
  unfold mkcolCalls at h
  by_cases hd : rustParent sp = "" ∨ rustParent sp = "/"
  · simp [hd] at h
  · simp only [hd, ite_false] at h ⊢
    exact ensureStep_err (splitOnSlash (trimStartSlashes (rustParent sp))) w "/" h

theorem baseEq_trans {w1 w2 w3 : World} (h1 : BaseEq w1 w2) (h2 : BaseEq w2 w3) :
    BaseEq w1 w3 :=
  ⟨h2.1.trans h1.1, h2.2.1.trans h1.2.1, h2.2.2.1.trans h1.2.2.1,
    h2.2.2.2.1.trans h1.2.2.2.1, h2.2.2.2.2.trans h1.2.2.2.2⟩

theorem upload_file_state (w : World) (lp sp : String) :
    BaseEq w (upload_file w lp sp).1
    ∧ (upload_file w lp sp).1.localFiles = w.localFiles
    ∧ (∀ q, q ≠ sp →
        alookup (upload_file w lp sp).1.remoteFiles q = alookup w.remoteFiles q)
    ∧ (∀ d ∈ w.remoteDirs, d ∈ (upload_file w lp sp).1.remoteDirs) := by
  have hs := ensure_state w sp
  rcases hE : ensure_remote_directories w sp with ⟨w1, r⟩
  rw [hE] at hs
  obtain ⟨hbase, hlf, hrf, hdm, -⟩ := hs
  cases r with
  | error e =>
      simp only [upload_file, hE]
      exact ⟨hbase, hlf, fun q _ => by rw [hrf], hdm⟩
  | ok u =>
      rcases hL : alookup w1.localFiles lp with _ | lf
      · simp only [upload_file, hE, hL]
        exact ⟨hbase, hlf, fun q _ => by rw [hrf], hdm⟩
      · simp only [upload_file, hE, hL]
        obtain ⟨pbase, plf, prd, -, pne, -, -⟩ := putRequest_spec w1 sp lf.content
        refine ⟨baseEq_trans hbase pbase, plf.trans hlf, fun q hq => ?_,
          fun d hd => ?_⟩
        · rw [pne q hq, hrf]
        · rw [prd]
          exact hdm d hd

theorem upload_file_ok_inv (w : World) (lp sp : String)
    (h : (upload_file w lp sp).2 = .ok ()) :
    (alookup (upload_file w lp sp).1.remoteFiles sp).isSome
    ∧ ∃ lf, alookup w.localFiles lp = some lf := by
  have hs := ensure_state w sp
  rcases hE : ensure_remote_directories w sp with ⟨w1, r⟩
  rw [hE] at hs
  obtain ⟨hbase, hlf, hrf, -, -⟩ := hs
  cases r with
  | error e => simp [upload_file, hE] at h
  | ok u =>
      rcases hL : alookup w1.localFiles lp with _ | lf
      · simp [upload_file, hE, hL] at h
      · simp only [upload_file, hE, hL] at h ⊢
        obtain ⟨-, -, -, -, -, pok, pdenied⟩ := putRequest_spec w1 sp lf.content
        by_cases hput : sp ∈ w1.putDenied
        · obtain ⟨-, e, he⟩ := pdenied hput
          rw [he] at h
          exact absurd h (by simp)
        · obtain ⟨-, hsome⟩ := pok hput
          refine ⟨by simp [hsome], lf, ?_⟩
          rw [← hlf]
          exact hL

theorem upload_file_err_mkcol (w : World) (lp sp : String)
    (h : ∃ q ∈ mkcolCalls sp, q ∈ w.mkcolDenied) :
    (∃ e, (upload_file w lp sp).2 = .error e)
    ∧ ∀ q, Op.Put q ∉ (upload_file w lp sp).1.trace.drop w.trace.length := by
  obtain ⟨e, he⟩ := ensure_err w sp h
  have hs := ensure_state w sp
  rcases hE : ensure_remote_directories w sp with ⟨w1, r⟩
  rw [hE] at hs he
  obtain ⟨-, -, -, -, ms, htr, hmk⟩ := hs
  have hr : r = .error e := he
  subst hr
  simp only [upload_file, hE]
  refine ⟨⟨e, rfl⟩, fun q hq => ?_⟩
  rw [htr] at hq
  rw [List.drop_left] at hq
  obtain ⟨q', hq'⟩ := hmk _ hq
  exact absurd hq' (by simp)

theorem chainOf_stepChain (parts : List String) : ∀ cur, StepChain cur (chainOf parts cur) := by
  induction parts with
  | nil => intro cur; exact trivial
  | cons p rest ih =>
      intro cur
      by_cases hp : p = ""
      · simpa [chainOf, hp] using ih cur
      · simp only [chainOf, hp, ite_false]
        exact ⟨⟨p, hp, rfl⟩, ih (cur ++ p ++ "/")⟩

theorem mkcolCalls_stepChain (sp : String) : StepChain "/" (mkcolCalls sp) := by
  unfold mkcolCalls
  by_cases hd : rustParent sp = "" ∨ rustParent sp = "/"
  · simp only [hd, ite_true]
    exact trivial
  · simp only [hd, ite_false]
    exact chainOf_stepChain _ "/"

/-! ## Comparator lemmas -/

theorem compare_ok_inv (w : World) (lp sp : String) (md : Option SyncMetadata)
    (o : Ordering) (h : compare_modified_time w lp sp md = .ok o) :
    ∃ lf, alookup w.localFiles lp = some lf := by
  unfold compare_modified_time get_local_file_info at h
  rcases hL : alookup w.localFiles lp with _ | lf
  · rw [hL] at h
    simp at h
  · exact ⟨lf, rfl⟩

theorem download_file_ok_inv (w : World) (lp sp : String)
    (h : (download_file w lp sp).2 = .ok ()) :
    ∃ rf, alookup w.remoteFiles sp = some rf := by
  unfold download_file at h
  rcases hR : alookup w.remoteFiles sp with _ | rf
  · rw [hR] at h
    simp at h
  · exact ⟨rf, rfl⟩

/-! ## `synchronize_file` case analysis -/

theorem synchronize_file_spec (w : World) (lp sp : String) (md : Option SyncMetadata) :
    BaseEq w (synchronize_file w lp sp md).1
    ∧ (∀ p, p ≠ lp →
        alookup (synchronize_file w lp sp md).1.localFiles p = alookup w.localFiles p)
    ∧ (∀ q, q ≠ sp →
        alookup (synchronize_file w lp sp md).1.remoteFiles q = alookup w.remoteFiles q)
    ∧ (∀ d ∈ w.remoteDirs, d ∈ (synchronize_file w lp sp md).1.remoteDirs)
    ∧ ((synchronize_file w lp sp md).2.2 = .ok () →
        (synchronize_file w lp sp md).2.1
          = [Msg.UpdatePairSyncState lp SyncState.Synchronized]
        ∧ (alookup (synchronize_file w lp sp md).1.localFiles lp).isSome
        ∧ is_remote_file_exist (synchronize_file w lp sp md).1 sp = true)
    ∧ ((synchronize_file w lp sp md).2.1 = []
        ∨ ∃ st, (synchronize_file w lp sp md).2.1 = [Msg.UpdatePairSyncState lp st])
    ∧ (∀ e, (synchronize_file w lp sp md).2.2 = .error e →
        (synchronize_file w lp sp md).2.1 = []
        ∨ (synchronize_file w lp sp md).2.1
            = [Msg.UpdatePairSyncState lp SyncState.CantSynchronize])
    ∧ (is_local_file_exist w lp = true →
        ∀ e, (synchronize_file w lp sp md).2.2 = .error e →
        (synchronize_file w lp sp md).2.1 = []) := by
  by_cases h1 : (is_local_file_exist w lp && is_remote_file_exist w sp) = true
  · rcases hC : compare_modified_time w lp sp md with e | o
    · have hg : synchronize_file w lp sp md = (w, [], .error e) := by
        unfold synchronize_file
        rw [if_pos h1, hC]
      rw [hg]
      exact ⟨⟨rfl, rfl, rfl, rfl, rfl⟩, fun p _ => rfl, fun q _ => rfl, fun d hd => hd,
        by intro hk; simp at hk, Or.inl rfl, fun e' _ => Or.inl rfl, fun _ e' _ => rfl⟩
    · obtain ⟨lf, hlf⟩ := compare_ok_inv w lp sp md o hC
      cases o with
      | gt =>
          rcases hU : upload_file w lp sp with ⟨w1, r1⟩
          have hust := upload_file_state w lp sp
          rw [hU] at hust
          obtain ⟨ubase, ulf, urf, udm⟩ := hust
          cases r1 with
          | error e1 =>
              have hg : synchronize_file w lp sp md = (w1, [], .error e1) := by
                unfold synchronize_file
                rw [if_pos h1, hC, hU]
              rw [hg]
              exact ⟨ubase, fun p _ => by rw [ulf], urf, udm,
                by intro hk; simp at hk, Or.inl rfl, fun e' _ => Or.inl rfl,
                fun _ e' _ => rfl⟩
          | ok u =>
              cases u
              have hinv := upload_file_ok_inv w lp sp (by rw [hU])
              rw [hU] at hinv
              have hg : synchronize_file w lp sp md
                  = (w1, [Msg.UpdatePairSyncState lp SyncState.Synchronized], .ok ()) := by
                unfold synchronize_file
                rw [if_pos h1, hC, hU]
              rw [hg]
              refine ⟨ubase, fun p _ => by rw [ulf], urf, udm,
                fun _ => ⟨rfl, ?_, ?_⟩, Or.inr ⟨_, rfl⟩,
                fun e' he' => by simp at he', fun _ e' he' => by simp at he'⟩
              · rw [ulf, hlf]
                rfl
              · simp only [is_remote_file_exist]
                rw [Bool.or_eq_true]
                exact Or.inl hinv.1
      | lt =>
          rcases hD : download_file w lp sp with ⟨w1, r1⟩
          have hdst := download_file_spec w lp sp
          rw [hD] at hdst
          obtain ⟨dbase, drf, drd, -, dne, -, dok⟩ := hdst
          cases r1 with
          | error e1 =>
              have hg : synchronize_file w lp sp md = (w1, [], .error e1) := by
                unfold synchronize_file
                rw [if_pos h1, hC, hD]
              rw [hg]
              exact ⟨dbase, dne, fun q _ => by rw [drf], fun d hd => by rw [drd]; exact hd,
                by intro hk; simp at hk, Or.inl rfl, fun e' _ => Or.inl rfl,
                fun _ e' _ => rfl⟩
          | ok u =>
              cases u
              obtain ⟨rf, hrf⟩ := download_file_ok_inv w lp sp (by rw [hD])
              obtain ⟨-, hins⟩ := dok rf hrf
              have hg : synchronize_file w lp sp md
                  = (w1, [Msg.UpdatePairSyncState lp SyncState.Synchronized], .ok ()) := by
                unfold synchronize_file
                rw [if_pos h1, hC, hD]
              rw [hg]
              refine ⟨dbase, dne, fun q _ => by rw [drf], fun d hd => by rw [drd]; exact hd,
                fun _ => ⟨rfl, by simp [hins], ?_⟩, Or.inr ⟨_, rfl⟩,
                fun e' he' => by simp at he', fun _ e' he' => by simp at he'⟩
              simp only [is_remote_file_exist]
              rw [Bool.or_eq_true]
              exact Or.inl (by rw [drf]; simp [hrf])
      | eq =>
          have hg : synchronize_file w lp sp md
              = (w, [Msg.UpdatePairSyncState lp SyncState.Synchronized], .ok ()) := by
            unfold synchronize_file
            rw [if_pos h1, hC]
          rw [hg]
          refine ⟨⟨rfl, rfl, rfl, rfl, rfl⟩, fun p _ => rfl, fun q _ => rfl, fun d hd => hd,
            fun _ => ⟨rfl, by simp [hlf], ?_⟩, Or.inr ⟨_, rfl⟩,
            fun e' he' => by simp at he', fun _ e' he' => by simp at he'⟩
          cases hr : is_remote_file_exist w sp
          · rw [hr] at h1
            simp at h1
          · rfl
  · by_cases h2 : (is_local_file_exist w lp && !is_remote_file_exist w sp) = true
    · rcases hU : upload_file w lp sp with ⟨w1, r1⟩
      have hust := upload_file_state w lp sp
      rw [hU] at hust
      obtain ⟨ubase, ulf, urf, udm⟩ := hust
      cases r1 with
      | error e1 =>
          have hg : synchronize_file w lp sp md = (w1, [], .error e1) := by
            unfold synchronize_file
            rw [if_neg h1, if_pos h2, hU]
          rw [hg]
          exact ⟨ubase, fun p _ => by rw [ulf], urf, udm,
            by intro hk; simp at hk, Or.inl rfl, fun e' _ => Or.inl rfl, fun _ e' _ => rfl⟩
      | ok u =>
          cases u
          have hinv := upload_file_ok_inv w lp sp (by rw [hU])
          rw [hU] at hinv
          have hg : synchronize_file w lp sp md
              = (w1, [Msg.UpdatePairSyncState lp SyncState.Synchronized], .ok ()) := by
            unfold synchronize_file
            rw [if_neg h1, if_pos h2, hU]
          rw [hg]
          obtain ⟨lf, hlf⟩ := hinv.2
          refine ⟨ubase, fun p _ => by rw [ulf], urf, udm,
            fun _ => ⟨rfl, by rw [ulf]; simp [hlf], ?_⟩, Or.inr ⟨_, rfl⟩,
            fun e' he' => by simp at he', fun _ e' he' => by simp at he'⟩
          simp only [is_remote_file_exist]
          rw [Bool.or_eq_true]
          exact Or.inl hinv.1
    · by_cases h3 : (!is_local_file_exist w lp && is_remote_file_exist w sp) = true
      · by_cases h4 : is_download_possible w lp = true
        · rcases hD : download_file w lp sp with ⟨w1, r1⟩
          have hdst := download_file_spec w lp sp
          rw [hD] at hdst
          obtain ⟨dbase, drf, drd, -, dne, -, dok⟩ := hdst
          cases r1 with
          | error e1 =>
              have hg : synchronize_file w lp sp md = (w1, [], .error e1) := by
                unfold synchronize_file
                rw [if_neg h1, if_neg h2, if_pos h3, if_pos h4, hD]
              rw [hg]
              exact ⟨dbase, dne, fun q _ => by rw [drf], fun d hd => by rw [drd]; exact hd,
                by intro hk; simp at hk, Or.inl rfl, fun e' _ => Or.inl rfl,
                fun _ e' _ => rfl⟩
          | ok u =>
              cases u
              obtain ⟨rf, hrf⟩ := download_file_ok_inv w lp sp (by rw [hD])
              obtain ⟨-, hins⟩ := dok rf hrf
              have hg : synchronize_file w lp sp md
                  = (w1, [Msg.UpdatePairSyncState lp SyncState.Synchronized], .ok ()) := by
                unfold synchronize_file
                rw [if_neg h1, if_neg h2, if_pos h3, if_pos h4, hD]
              rw [hg]
              refine ⟨dbase, dne, fun q _ => by rw [drf], fun d hd => by rw [drd]; exact hd,
                fun _ => ⟨rfl, by simp [hins], ?_⟩, Or.inr ⟨_, rfl⟩,
                fun e' he' => by simp at he', fun _ e' he' => by simp at he'⟩
              simp only [is_remote_file_exist]
              rw [Bool.or_eq_true]
              exact Or.inl (by rw [drf]; simp [hrf])
        · have hg : synchronize_file w lp sp md
              = (w, [Msg.UpdatePairSyncState lp SyncState.CantSynchronize],
                  .error ("Not all dirs in path exist " ++ lp)) := by
            unfold synchronize_file
            rw [if_neg h1, if_neg h2, if_pos h3, if_neg h4]
          rw [hg]
          refine ⟨⟨rfl, rfl, rfl, rfl, rfl⟩, fun p _ => rfl, fun q _ => rfl, fun d hd => hd,
            by intro hk; simp at hk, Or.inr ⟨_, rfl⟩, fun e' _ => Or.inr rfl,
            fun hloc e' _ => ?_⟩
          rw [hloc] at h3
          simp at h3
      · have hg : synchronize_file w lp sp md
            = (w, [Msg.UpdatePairSyncState lp SyncState.CantSynchronize],
                .error ("Both file don't exist " ++ lp ++ " <=> " ++ sp)) := by
          unfold synchronize_file
          rw [if_neg h1, if_neg h2, if_neg h3]
        rw [hg]
        refine ⟨⟨rfl, rfl, rfl, rfl, rfl⟩, fun p _ => rfl, fun q _ => rfl, fun d hd => hd,
          by intro hk; simp at hk, Or.inr ⟨_, rfl⟩, fun e' _ => Or.inr rfl,
          fun hloc e' _ => ?_⟩
        cases hr : is_remote_file_exist w sp
        · exact absurd (by rw [hloc, hr]; decide) h2
        · exact absurd (by rw [hloc, hr]; decide) h1

/-- A pair whose metadata entry equals the local modification time takes
the `InSync` path: nothing is transferred, the world is unchanged, the
outcome is `Synchronized`. -/
theorem synchronize_file_insync (w : World) (lp sp : String) (md : SyncMetadata)
    (lf : LFile) (hl : alookup w.localFiles lp = some lf)
    (hr : is_remote_file_exist w sp = true)
    (hm : alookup md.files sp = some lf.mtime) :
    synchronize_file w lp sp (some md)
      = (w, [Msg.UpdatePairSyncState lp SyncState.Synchronized], .ok ()) := by
  have hloc : is_local_file_exist w lp = true := by
    simp [is_local_file_exist, hl]
  have hcmp : compare_modified_time w lp sp (some md) = .ok Ordering.eq := by
    unfold compare_modified_time get_local_file_info
    rw [hl]
    simp only [hm]
    have hself : compare lf.mtime lf.mtime = Ordering.eq := by
      simp [Nat.compare_eq_eq]
    rw [hself]
  unfold synchronize_file
  rw [if_pos (show (is_local_file_exist w lp && is_remote_file_exist w sp) = true by
        rw [hloc, hr]; decide), hcmp]

/-! ## Pair-loop lemmas -/

theorem outcomes_append (a b : List Msg) : outcomes (a ++ b) = outcomes a ++ outcomes b := by
  simp [outcomes]

theorem noErrors_append (a b : List Msg) :
    noErrors (a ++ b) = (noErrors a && noErrors b) := by
  simp [noErrors]

theorem synchronize_files_state (pairs : List (String × String)) :
    ∀ (w : World) (md : Option SyncMetadata),
    BaseEq w (synchronize_files w pairs md).1
    ∧ (∀ p, p ∉ pairs.map Prod.fst →
        alookup (synchronize_files w pairs md).1.localFiles p = alookup w.localFiles p)
    ∧ (∀ q, q ∉ pairs.map Prod.snd →
        alookup (synchronize_files w pairs md).1.remoteFiles q = alookup w.remoteFiles q)
    ∧ (∀ d ∈ w.remoteDirs, d ∈ (synchronize_files w pairs md).1.remoteDirs) := by
  induction pairs with
  | nil =>
      intro w md
      exact ⟨⟨rfl, rfl, rfl, rfl, rfl⟩, fun p _ => rfl, fun q _ => rfl, fun d hd => hd⟩
  | cons pr rest ih =>
      intro w md
      obtain ⟨lp, sp⟩ := pr
      obtain ⟨fbase, flp, frp, fdm, -, -, -, -⟩ := synchronize_file_spec w lp sp md
      obtain ⟨ibase, ilp, irp, idm⟩ := ih (synchronize_file w lp sp md).1 md
      have hS : (synchronize_files w ((lp, sp) :: rest) md).1
          = (synchronize_files (synchronize_file w lp sp md).1 rest md).1 := by
        simp only [synchronize_files]
      rw [hS]
      refine ⟨baseEq_trans fbase ibase, fun p hp => ?_, fun q hq => ?_, fun d hd => ?_⟩
      · have hp1 : p ≠ lp := by
          intro hcontra
          exact hp (by simp [hcontra])
        have hp2 : p ∉ rest.map Prod.fst := by
          intro hcontra
          exact hp (by simp [hcontra])
        rw [ilp p hp2, flp p hp1]
      · have hq1 : q ≠ sp := by
          intro hcontra
          exact hq (by simp [hcontra])
        have hq2 : q ∉ rest.map Prod.snd := by
          intro hcontra
          exact hq (by simp [hcontra])
        rw [irp q hq2, frp q hq1]
      · exact idm d (fdm d hd)

theorem synchronize_files_msgs_eq (w : World) (lp sp : String)
    (rest : List (String × String)) (md : Option SyncMetadata) :
    (synchronize_files w ((lp, sp) :: rest) md).2
      = (match (synchronize_file w lp sp md).2.2 with
          | .ok _ => (synchronize_file w lp sp md).2.1
          | .error e => (synchronize_file w lp sp md).2.1 ++ [Msg.ShowError e])
        ++ (synchronize_files (synchronize_file w lp sp md).1 rest md).2 := by
  simp only [synchronize_files]

theorem synchronize_files_noerr_post (pairs : List (String × String)) :
    ∀ (w : World) (md : Option SyncMetadata),
    (pairs.map Prod.fst).Nodup → (pairs.map Prod.snd).Nodup →
    noErrors (synchronize_files w pairs md).2 = true →
    ∀ pr ∈ pairs,
      (alookup (synchronize_files w pairs md).1.localFiles pr.1).isSome
      ∧ is_remote_file_exist (synchronize_files w pairs md).1 pr.2 = true := by
  induction pairs with
  | nil => intro w md _ _ _ pr hpr; simp at hpr
  | cons hd0 rest ih =>
      intro w md hnodf hnods hne pr hpr
      obtain ⟨lp, sp⟩ := hd0
      have hmsgs := synchronize_files_msgs_eq w lp sp rest md
      rw [hmsgs, noErrors_append, Bool.and_eq_true] at hne
      obtain ⟨hne1, hne2⟩ := hne
      obtain ⟨fbase, flp, frp, fdm, fok, -, -, -⟩ := synchronize_file_spec w lp sp md
      have hres : (synchronize_file w lp sp md).2.2 = .ok () := by
        rcases hr : (synchronize_file w lp sp md).2.2 with e | u
        · rw [hr] at hne1
          simp [noErrors] at hne1
        · rfl
      obtain ⟨-, hlsome, hrtrue⟩ := fok hres
      have hS1 : (synchronize_files w ((lp, sp) :: rest) md).1
          = (synchronize_files (synchronize_file w lp sp md).1 rest md).1 := by
        simp only [synchronize_files]
      obtain ⟨ibase, ilp, irp, idm⟩ :=
        synchronize_files_state rest (synchronize_file w lp sp md).1 md
      rcases List.mem_cons.mp hpr with heq | hpr'
      · subst heq
        rw [hS1]
        constructor
        · have hnotin : lp ∉ rest.map Prod.fst := by
            simp only [List.map_cons, List.nodup_cons] at hnodf
            exact hnodf.1
          rw [ilp lp hnotin]
          exact hlsome
        · have hnotin : sp ∉ rest.map Prod.snd := by
            simp only [List.map_cons, List.nodup_cons] at hnods
            exact hnods.1
          rcases Bool.or_eq_true .. |>.mp hrtrue with hfile | hdir
          · simp only [is_remote_file_exist]
            rw [Bool.or_eq_true]
            exact Or.inl (by rw [irp sp hnotin]; exact hfile)
          · simp only [is_remote_file_exist]
            rw [Bool.or_eq_true]
            refine Or.inr ?_
            have hmem : sp ∈ (synchronize_file w lp sp md).1.remoteDirs := by
              simpa using hdir
            simpa using idm sp hmem
      · have hnf : (rest.map Prod.fst).Nodup := by
          simp only [List.map_cons, List.nodup_cons] at hnodf
          exact hnodf.2
        have hns : (rest.map Prod.snd).Nodup := by
          simp only [List.map_cons, List.nodup_cons] at hnods
          exact hnods.2
        have := ih (synchronize_file w lp sp md).1 md hnf hns hne2 pr hpr'
        rw [hS1]
        exact this

theorem synchronize_files_outcomes_sublist (pairs : List (String × String)) :
    ∀ (w : World) (md : Option SyncMetadata),
    ((outcomes (synchronize_files w pairs md).2).map Prod.fst).Sublist
      (pairs.map Prod.fst) := by
  induction pairs with
  | nil => intro w md; simp [synchronize_files, outcomes]
  | cons hd0 rest ih =>
      intro w md
      obtain ⟨lp, sp⟩ := hd0
      rw [synchronize_files_msgs_eq w lp sp rest md, outcomes_append]
      obtain ⟨-, -, -, -, -, fshape, -, -⟩ := synchronize_file_spec w lp sp md
      have hout : outcomes (match (synchronize_file w lp sp md).2.2 with
          | .ok _ => (synchronize_file w lp sp md).2.1
          | .error e => (synchronize_file w lp sp md).2.1 ++ [Msg.ShowError e])
          = outcomes (synchronize_file w lp sp md).2.1 := by
        rcases (synchronize_file w lp sp md).2.2 with e | u
        · rw [outcomes_append]
          simp [outcomes]
        · rfl
      rw [hout]
      rcases fshape with hempty | ⟨st, hone⟩
      · rw [hempty]
        simp only [outcomes, List.filterMap_nil, List.nil_append, List.map_cons]
        exact (ih (synchronize_file w lp sp md).1 md).cons lp
      · rw [hone]
        simp only [outcomes, List.filterMap_cons, List.filterMap_nil, List.map_cons,
          List.map_append]
        exact (List.Sublist.cons₂ lp (ih (synchronize_file w lp sp md).1 md))

theorem synchronize_files_noerr_outcomes (pairs : List (String × String)) :
    ∀ (w : World) (md : Option SyncMetadata),
    noErrors (synchronize_files w pairs md).2 = true →
    outcomes (synchronize_files w pairs md).2
      = pairs.map (fun pr => (pr.1, SyncState.Synchronized)) := by
  induction pairs with
  | nil => intro w md _; simp [synchronize_files, outcomes]
  | cons hd0 rest ih =>
      intro w md hne
      obtain ⟨lp, sp⟩ := hd0
      rw [synchronize_files_msgs_eq w lp sp rest md] at hne ⊢
      rw [noErrors_append, Bool.and_eq_true] at hne
      obtain ⟨hne1, hne2⟩ := hne
      obtain ⟨-, -, -, -, fok, -, -, -⟩ := synchronize_file_spec w lp sp md
      have hres : (synchronize_file w lp sp md).2.2 = .ok () := by
        rcases hr : (synchronize_file w lp sp md).2.2 with e | u
        · rw [hr] at hne1
          simp [noErrors] at hne1
        · rfl
      obtain ⟨hmsgs1, -, -⟩ := fok hres
      simp only [hres]
      rw [outcomes_append, hmsgs1, ih (synchronize_file w lp sp md).1 md hne2]
      simp [outcomes]

theorem synchronize_files_insync (pairs : List (String × String)) :
    ∀ (w : World) (md : SyncMetadata),
    InSyncAll w md pairs →
    synchronize_files w pairs (some md)
      = (w, pairs.map fun pr => Msg.UpdatePairSyncState pr.1 SyncState.Synchronized) := by
  induction pairs with
  | nil => intro w md _; simp [synchronize_files]
  | cons hd0 rest ih =>
      intro w md hall
      obtain ⟨lp, sp⟩ := hd0
      obtain ⟨lf, hl, hr, hm⟩ := hall (lp, sp) (List.mem_cons_self _ _)
      have hone := synchronize_file_insync w lp sp md lf hl hr hm
      have hrest := ih w md (fun pr hpr => hall pr (List.mem_cons_of_mem _ hpr))
      simp [synchronize_files, hone, hrest]

/-! ## Metadata-store lemmas -/

theorem updateMetadataFiles_not_mem (pairs : List (String × String)) :
    ∀ (w : World) (files : List (String × Nat)) (q : String),
    q ∉ pairs.map Prod.snd →
    alookup (updateMetadataFiles w pairs files) q = alookup files q := by
  induction pairs with
  | nil => intro w files q _; rfl
  | cons hd0 rest ih =>
      intro w files q hq
      obtain ⟨lp, sp⟩ := hd0
      have hq1 : q ≠ sp := by
        intro hcontra
        exact hq (by simp [hcontra])
      have hq2 : q ∉ rest.map Prod.snd := by
        intro hcontra
        exact hq (by simp [hcontra])
      rcases hL : alookup w.localFiles lp with _ | lf
      · simp only [updateMetadataFiles, hL]
        exact ih w files q hq2
      · simp only [updateMetadataFiles, hL]
        rw [ih w (ainsert files sp lf.mtime) q hq2]
        exact alookup_ainsert_ne files sp q lf.mtime hq1

theorem updateMetadataFiles_isSome (pairs : List (String × String)) :
    ∀ (w : World) (files : List (String × Nat)) (q : String),
    (alookup files q).isSome →
    (alookup (updateMetadataFiles w pairs files) q).isSome := by
  induction pairs with
  | nil => intro w files q h; exact h
  | cons hd0 rest ih =>
      intro w files q h
      obtain ⟨lp, sp⟩ := hd0
      rcases hL : alookup w.localFiles lp with _ | lf
      · simp only [updateMetadataFiles, hL]
        exact ih w files q h
      · simp only [updateMetadataFiles, hL]
        exact ih w (ainsert files sp lf.mtime) q
          (alookup_ainsert_isSome files sp q lf.mtime h)

theorem updateMetadataFiles_mem (pairs : List (String × String)) :
    ∀ (w : World) (files : List (String × Nat)),
    (pairs.map Prod.snd).Nodup →
    ∀ pr ∈ pairs, ∀ lf, alookup w.localFiles pr.1 = some lf →
    alookup (updateMetadataFiles w pairs files) pr.2 = some lf.mtime := by
  induction pairs with
  | nil => intro w files _ pr hpr; simp at hpr
  | cons hd0 rest ih =>
      intro w files hnod pr hpr lf hlf
      obtain ⟨lp, sp⟩ := hd0
      rcases List.mem_cons.mp hpr with heq | hpr'
      · subst heq
        simp only at hlf
        simp only [updateMetadataFiles, hlf]
        have hnotin : sp ∉ rest.map Prod.snd := by
          simp only [List.map_cons, List.nodup_cons] at hnod
          exact hnod.1
        rw [updateMetadataFiles_not_mem rest w (ainsert files sp lf.mtime) sp hnotin]
        exact alookup_ainsert_self files sp lf.mtime
      · have hnod' : (rest.map Prod.snd).Nodup := by
          simp only [List.map_cons, List.nodup_cons] at hnod
          exact hnod.2
        rcases hL : alookup w.localFiles lp with _ | lf0
        · simp only [updateMetadataFiles, hL]
          exact ih w files hnod' pr hpr' lf hlf
        · simp only [updateMetadataFiles, hL]
          exact ih w (ainsert files sp lf0.mtime) hnod' pr hpr' lf hlf

theorem ensure_metadata_noop (w : World) :
    ensure_remote_directories w METADATA_FILENAME = (w, .ok ()) := by
  unfold ensure_remote_directories
  rw [if_pos (Or.inl (show rustParent METADATA_FILENAME = "" by decide))]

theorem save_spec (w : World) (pairs : List (String × String))
    (md : Option SyncMetadata) (h : METADATA_FILENAME ∉ w.putDenied) :
    (save_and_upload_metadata w pairs md).2 = .ok ()
    ∧ alookup (save_and_upload_metadata w pairs md).1.remoteFiles METADATA_FILENAME
        = some ⟨w.now,
            encodeMetadata ⟨updateMetadataFiles w pairs (md.getD ⟨[]⟩).files⟩⟩
    ∧ (save_and_upload_metadata w pairs md).1.localFiles = w.localFiles
    ∧ BaseEq w (save_and_upload_metadata w pairs md).1
    ∧ (∀ q, q ≠ METADATA_FILENAME →
        alookup (save_and_upload_metadata w pairs md).1.remoteFiles q
          = alookup w.remoteFiles q)
    ∧ (save_and_upload_metadata w pairs md).1.remoteDirs = w.remoteDirs
    ∧ (save_and_upload_metadata w pairs md).1.trace
        = w.trace ++ [Op.Put METADATA_FILENAME] := by
  have hsv : save_and_upload_metadata w pairs md
      = putRequest w METADATA_FILENAME
          (encodeMetadata ⟨updateMetadataFiles w pairs (md.getD ⟨[]⟩).files⟩) := by
    unfold save_and_upload_metadata
    rw [ensure_metadata_noop w]
  rw [hsv]
  obtain ⟨pbase, plf, prd, ptr, pne, pok, -⟩ :=
    putRequest_spec w METADATA_FILENAME
      (encodeMetadata ⟨updateMetadataFiles w pairs (md.getD ⟨[]⟩).files⟩)
  obtain ⟨hok, hlook⟩ := pok h
  exact ⟨hok, hlook, plf, pbase, pne, prd, ptr⟩

theorem load_metadata_state (w : World) :
    (load_metadata w).1.localFiles = w.localFiles
    ∧ (load_metadata w).1.remoteFiles = w.remoteFiles
    ∧ (load_metadata w).1.remoteDirs = w.remoteDirs
    ∧ BaseEq w (load_metadata w).1
    ∧ (load_metadata w).1.trace = w.trace ++ [Op.Get METADATA_FILENAME] := by
  unfold load_metadata BaseEq
  rcases h : alookup w.remoteFiles METADATA_FILENAME with _ | f <;> simp [h]

theorem load_metadata_val (w : World) (f : RFile)
    (h : alookup w.remoteFiles METADATA_FILENAME = some f) :
    (load_metadata w).2 = decodeMetadata f.content := by
  unfold load_metadata
  simp [h]

theorem save_state (w : World) (pairs : List (String × String))
    (md : Option SyncMetadata) :
    BaseEq w (save_and_upload_metadata w pairs md).1
    ∧ (save_and_upload_metadata w pairs md).1.localFiles = w.localFiles
    ∧ (∀ q, q ≠ METADATA_FILENAME →
        alookup (save_and_upload_metadata w pairs md).1.remoteFiles q
          = alookup w.remoteFiles q)
    ∧ (save_and_upload_metadata w pairs md).1.remoteDirs = w.remoteDirs := by
  have hsv : save_and_upload_metadata w pairs md
      = putRequest w METADATA_FILENAME
          (encodeMetadata ⟨updateMetadataFiles w pairs (md.getD ⟨[]⟩).files⟩) := by
    unfold save_and_upload_metadata
    rw [ensure_metadata_noop w]
  rw [hsv]
  obtain ⟨pbase, plf, prd, -, pne, -, -⟩ :=
    putRequest_spec w METADATA_FILENAME
      (encodeMetadata ⟨updateMetadataFiles w pairs (md.getD ⟨[]⟩).files⟩)
  exact ⟨pbase, plf, pne, prd⟩

/-! ## Run-level lemmas -/

theorem run_sync_parts (w : World) (pairs : List (String × String))
    (hc : w.connOk = true) :
    (run_sync w pairs).1
      = (save_and_upload_metadata
          (synchronize_files (load_metadata w).1 pairs (load_metadata w).2).1
          pairs (load_metadata w).2).1
    ∧ ∃ tail, (run_sync w pairs).2
        = (synchronize_files (load_metadata w).1 pairs (load_metadata w).2).2 ++ tail
      ∧ outcomes tail = []
      ∧ (noErrors (run_sync w pairs).2 = true →
          noErrors (synchronize_files (load_metadata w).1 pairs (load_metadata w).2).2
            = true) := by
  have hcond : ¬((!check_connection w) = true) := by
    simp [check_connection, hc]
  unfold run_sync
  rw [if_neg hcond]
  dsimp only
  rcases hsave : (save_and_upload_metadata
      (synchronize_files (load_metadata w).1 pairs (load_metadata w).2).1
      pairs (load_metadata w).2).2 with e | u
  · simp only [hsave]
    refine ⟨by simp, [Msg.ShowError e, Msg.StopSynchronize], ?_, ?_, ?_⟩
    · simp
    · simp [outcomes]
    · intro hne
      rw [List.append_assoc] at hne
      rw [noErrors_append, Bool.and_eq_true] at hne
      exact hne.1
  · simp only [hsave]
    refine ⟨by simp, [Msg.StopSynchronize], ?_, ?_, ?_⟩
    · simp
    · simp [outcomes]
    · intro hne
      rw [noErrors_append, Bool.and_eq_true] at hne
      exact hne.1

theorem outcomes_updates (l : List (String × String)) (st : SyncState) :
    outcomes (l.map fun pr => Msg.UpdatePairSyncState pr.1 st)
      = l.map fun pr => (pr.1, st) := by
  induction l with
  | nil => rfl
  | cons a t ih => simp only [List.map_cons, outcomes, List.filterMap_cons] at ih ⊢; rw [ih]

theorem synchronize_file_check_world (w : World) (lp sp : String)
    (md : Option SyncMetadata) : (synchronize_file_check w lp sp md).1 = w := by
  by_cases h1 : (is_local_file_exist w lp && is_remote_file_exist w sp) = true
  · rcases hC : compare_modified_time w lp sp md with e | o
    · simp [synchronize_file_check, h1, hC]
    · cases o <;> simp [synchronize_file_check, h1, hC]
  · by_cases h2 : (is_local_file_exist w lp && !is_remote_file_exist w sp) = true
    · simp [synchronize_file_check, h1, h2]
    · by_cases h3 : (!is_local_file_exist w lp && is_remote_file_exist w sp) = true
      · by_cases h4 : is_download_possible w lp = true
        · simp [synchronize_file_check, h1, h2, h3, h4]
        · simp [synchronize_file_check, h1, h2, h3, h4]
      · simp [synchronize_file_check, h1, h2, h3]

theorem synchronize_files_check_world (pairs : List (String × String)) :
    ∀ (w : World) (md : Option SyncMetadata),
    (synchronize_files_check w pairs md).1 = w := by
  induction pairs with
  | nil => intro w md; rfl
  | cons hd0 rest ih =>
      intro w md
      obtain ⟨lp, sp⟩ := hd0
      have h1 := synchronize_file_check_world w lp sp md
      have h2 := ih (synchronize_file_check w lp sp md).1 md
      calc (synchronize_files_check w ((lp, sp) :: rest) md).1
          = (synchronize_files_check (synchronize_file_check w lp sp md).1 rest md).1 := by
            simp only [synchronize_files_check]
        _ = (synchronize_file_check w lp sp md).1 := h2
        _ = w := h1

theorem classificationOfOrdering_compare (a b : Nat) :
    classificationOfOrdering (compare a b) = specClassifyBothExist a b := by
  rcases Nat.lt_trichotomy a b with h | h | h
  · rw [Nat.compare_eq_lt.mpr h]
    unfold specClassifyBothExist classificationOfOrdering
    rw [if_neg (by omega), if_pos h]
  · subst h
    rw [Nat.compare_eq_eq.mpr rfl]
    unfold specClassifyBothExist classificationOfOrdering
    rw [if_neg (by omega), if_neg (by omega)]
  · rw [Nat.compare_eq_gt.mpr h]
    unfold specClassifyBothExist classificationOfOrdering
    rw [if_pos h]

/-! ## Claim theorems -/

/-- C1: when both the local file and the remote object exist, the
comparison function returns the ordering of the local modification time
against the recorded metadata timestamp when the loaded metadata has an
entry for the remote path, and against the remote object's live
last-modified time otherwise; a greater local time classifies the pair
`LocalNewer`, a lesser one `RemoteNewer`, and equality `InSync`. -/
theorem c1_comparator_reference (w : World) (lp sp : String)
    (md : Option SyncMetadata) (lf : LFile) (rf : RFile)
    (hl : alookup w.localFiles lp = some lf)
    (hr : alookup w.remoteFiles sp = some rf) :
    compare_modified_time w lp sp md
      = .ok (compare lf.mtime (specReferenceTime md sp rf.lastModified))
    ∧ classificationOfOrdering (compare lf.mtime (specReferenceTime md sp rf.lastModified))
      = specClassifyBothExist lf.mtime (specReferenceTime md sp rf.lastModified) := by
  refine ⟨?_, classificationOfOrdering_compare _ _⟩
  cases md with
  | none =>
      simp [compare_modified_time, get_local_file_info, compare_fallback,
        get_remote_file_info, specReferenceTime, hl, hr]
  | some m =>
      rcases hm : alookup m.files sp with _ | t
      · simp [compare_modified_time, get_local_file_info, compare_fallback,
          get_remote_file_info, specReferenceTime, hl, hr, hm]
      · simp [compare_modified_time, get_local_file_info, compare_fallback,
          get_remote_file_info, specReferenceTime, hl, hr, hm]

theorem c1_witness :
    compare_modified_time wBoth "/tmp/a.txt" "/docs/a.txt"
        (some ⟨[("/docs/a.txt", 12)]⟩)
      = .ok (compare 7 (specReferenceTime (some ⟨[("/docs/a.txt", 12)]⟩)
          "/docs/a.txt" 9))
    ∧ classificationOfOrdering
        (compare 7 (specReferenceTime (some ⟨[("/docs/a.txt", 12)]⟩) "/docs/a.txt" 9))
      = specClassifyBothExist 7
          (specReferenceTime (some ⟨[("/docs/a.txt", 12)]⟩) "/docs/a.txt" 9) :=
  c1_comparator_reference wBoth "/tmp/a.txt" "/docs/a.txt"
    (some ⟨[("/docs/a.txt", 12)]⟩) ⟨7, [1, 2]⟩ ⟨9, [3]⟩ (by decide) (by decide)

/-- C4 (amended): at the end of a `Mutate` run the current local
modification time is recorded against the remote path for every pair
whose local file exists at that point — regardless of the pair's outcome,
not only for pairs that ended `Synchronized` — and the whole store is
then serialized and uploaded to its fixed remote location. -/
theorem c4_amended_metadata_refresh (w : World) (pairs : List (String × String))
    (md : Option SyncMetadata)
    (hnod : (pairs.map Prod.snd).Nodup)
    (hput : METADATA_FILENAME ∉ w.putDenied) :
    (∀ pr ∈ pairs, ∀ lf, alookup w.localFiles pr.1 = some lf →
        alookup (updateMetadataFiles w pairs (md.getD ⟨[]⟩).files) pr.2 = some lf.mtime)
    ∧ (save_and_upload_metadata w pairs md).2 = .ok ()
    ∧ alookup (save_and_upload_metadata w pairs md).1.remoteFiles METADATA_FILENAME
        = some ⟨w.now,
            encodeMetadata ⟨updateMetadataFiles w pairs (md.getD ⟨[]⟩).files⟩⟩ := by
  obtain ⟨hok, hlook, -, -, -, -, -⟩ := save_spec w pairs md hput
  exact ⟨fun pr hpr lf hlf =>
    updateMetadataFiles_mem pairs w (md.getD ⟨[]⟩).files hnod pr hpr lf hlf, hok, hlook⟩

theorem c4_witness :
    (∀ pr ∈ [("/tmp/x.txt", "/docs/x.txt")], ∀ lf,
        alookup wHealthy.localFiles pr.1 = some lf →
        alookup (updateMetadataFiles wHealthy [("/tmp/x.txt", "/docs/x.txt")]
            ((none : Option SyncMetadata).getD ⟨[]⟩).files) pr.2 = some lf.mtime)
    ∧ (save_and_upload_metadata wHealthy [("/tmp/x.txt", "/docs/x.txt")] none).2 = .ok ()
    ∧ alookup (save_and_upload_metadata wHealthy
          [("/tmp/x.txt", "/docs/x.txt")] none).1.remoteFiles METADATA_FILENAME
        = some ⟨wHealthy.now,
            encodeMetadata ⟨updateMetadataFiles wHealthy [("/tmp/x.txt", "/docs/x.txt")]
              ((none : Option SyncMetadata).getD ⟨[]⟩).files⟩⟩ :=
  c4_amended_metadata_refresh wHealthy [("/tmp/x.txt", "/docs/x.txt")] none
    (by decide) (by decide)

/-- C4 counterexample: a pair whose upload fails (so it does not end
`Synchronized`) still gets its current local modification time recorded
in the uploaded store — refuting "and for no other pair". -/
theorem c4_counterexample :
    outcomes (run_sync wPutFail2 [("c", "d")]).2 = []
    ∧ (load_metadata (run_sync wPutFail2 [("c", "d")]).1).2 = some ⟨[("d", 8)]⟩ := by
  decide

/-- C5: the serialize-then-deserialize round trip reproduces the store
exactly; the store loaded in the immediately following run is the one
written at the end of the previous run; and whenever the loaded metadata
holds a timestamp for the remote path, that read-back timestamp is the
reference of the `LocalNewer`/`RemoteNewer` decision, regardless of the
remote object's live last-modified time. -/
theorem c5_metadata_roundtrip_precedence (w : World) (pairs : List (String × String))
    (md : Option SyncMetadata)
    (hput : METADATA_FILENAME ∉ w.putDenied) :
    (∀ m : SyncMetadata, decodeMetadata (encodeMetadata m) = some m)
    ∧ (load_metadata (save_and_upload_metadata w pairs md).1).2
        = some ⟨updateMetadataFiles w pairs (md.getD ⟨[]⟩).files⟩
    ∧ (∀ (w2 : World) (lp sp : String) (lf : LFile) (t : Nat) (m2 : SyncMetadata),
        alookup w2.localFiles lp = some lf →
        alookup m2.files sp = some t →
        compare_modified_time w2 lp sp (some m2) = .ok (compare lf.mtime t)) := by
  obtain ⟨-, hlook, -, -, -, -, -⟩ := save_spec w pairs md hput
  refine ⟨decodeMetadata_encodeMetadata, ?_, ?_⟩
  · rw [load_metadata_val _ _ hlook]
    exact decodeMetadata_encodeMetadata _
  · intro w2 lp sp lf t m2 hl hm
    simp [compare_modified_time, get_local_file_info, hl, hm]

theorem c5_witness :
    (∀ m : SyncMetadata, decodeMetadata (encodeMetadata m) = some m)
    ∧ (load_metadata (save_and_upload_metadata wHealthy
          [("/tmp/x.txt", "/docs/x.txt")] none).1).2
        = some ⟨updateMetadataFiles wHealthy [("/tmp/x.txt", "/docs/x.txt")]
            ((none : Option SyncMetadata).getD ⟨[]⟩).files⟩
    ∧ compare_modified_time wBoth "/tmp/a.txt" "/docs/a.txt"
          (some ⟨[("/docs/a.txt", 12)]⟩)
        = .ok (compare (7 : Nat) 12) :=
  ⟨(c5_metadata_roundtrip_precedence wHealthy [("/tmp/x.txt", "/docs/x.txt")] none
      (by decide)).1,
   (c5_metadata_roundtrip_precedence wHealthy [("/tmp/x.txt", "/docs/x.txt")] none
      (by decide)).2.1,
   (c5_metadata_roundtrip_precedence wHealthy [("/tmp/x.txt", "/docs/x.txt")] none
      (by decide)).2.2 wBoth "/tmp/a.txt" "/docs/a.txt" ⟨7, [1, 2]⟩ 12
      ⟨[("/docs/a.txt", 12)]⟩ (by decide) (by decide)⟩

/-- C7: the intermediate remote directories are created strictly in
parent-to-child order from the root downward, one non-empty segment at a
time; when every MKCOL answers 201 or 405 ("already exists" is not an
error) the walk succeeds and issues exactly the chain of MKCOLs; when
some segment's MKCOL is denied, the whole upload aborts with an error and
no PUT is ever issued. -/
theorem c7_remote_directory_creation (w : World) (lp sp : String) :
    StepChain "/" (mkcolCalls sp)
    ∧ ((∀ q ∈ mkcolCalls sp, q ∉ w.mkcolDenied) →
        (ensure_remote_directories w sp).2 = .ok ()
        ∧ (ensure_remote_directories w sp).1.trace
            = w.trace ++ (mkcolCalls sp).map Op.Mkcol)
    ∧ ((∃ q ∈ mkcolCalls sp, q ∈ w.mkcolDenied) →
        (∃ e, (upload_file w lp sp).2 = .error e)
        ∧ ∀ q, Op.Put q ∉ (upload_file w lp sp).1.trace.drop w.trace.length) :=
  ⟨mkcolCalls_stepChain sp, ensure_ok w sp, upload_file_err_mkcol w lp sp⟩

theorem c7_witness :
    (StepChain "/" (mkcolCalls "/docs/sub/x.txt")
      ∧ (ensure_remote_directories wHealthy "/docs/sub/x.txt").2 = .ok ()
      ∧ (ensure_remote_directories wHealthy "/docs/sub/x.txt").1.trace
          = wHealthy.trace ++ (mkcolCalls "/docs/sub/x.txt").map Op.Mkcol)
    ∧ ((∃ e, (upload_file wMkcolFail "/tmp/y.txt" "/deep/y.txt").2 = .error e)
      ∧ ∀ q, Op.Put q ∉
          (upload_file wMkcolFail "/tmp/y.txt" "/deep/y.txt").1.trace.drop
            wMkcolFail.trace.length) :=
  ⟨⟨(c7_remote_directory_creation wHealthy "/tmp/x.txt" "/docs/sub/x.txt").1,
    (c7_remote_directory_creation wHealthy "/tmp/x.txt" "/docs/sub/x.txt").2.1
      (by decide)⟩,
   (c7_remote_directory_creation wMkcolFail "/tmp/y.txt" "/deep/y.txt").2.2
      (by decide)⟩

/-- C8: a `ReportOnly` (check) run performs no upload and no download of
pair content: the local files, the remote objects and both directory
trees are unchanged by the run, for every world and pair list. -/
theorem c8_reportonly_no_mutation (w : World) (pairs : List (String × String)) :
    (check_sync w pairs).1.localFiles = w.localFiles
    ∧ (check_sync w pairs).1.remoteFiles = w.remoteFiles
    ∧ (check_sync w pairs).1.localDirs = w.localDirs
    ∧ (check_sync w pairs).1.remoteDirs = w.remoteDirs := by
  unfold check_sync
  by_cases hcn : (!check_connection w) = true
  · rw [if_pos hcn]
    exact ⟨rfl, rfl, rfl, rfl⟩
  · rw [if_neg hcn]
    dsimp only
    rw [synchronize_files_check_world pairs (load_metadata w).1 (load_metadata w).2]
    obtain ⟨hlf, hrf, hrd, hbase, -⟩ := load_metadata_state w
    exact ⟨hlf, hrf, hbase.2.2.1, hrd⟩

/-- C9: a download creates or overwrites the local file only on a success
status; on a non-success response it returns an error and the local file
at the destination path is unchanged (error atomicity). -/
theorem c9_download_atomicity (w : World) (lp sp : String) :
    (alookup w.remoteFiles sp = none →
      (download_file w lp sp).1.localFiles = w.localFiles
      ∧ ∃ e, (download_file w lp sp).2 = .error e)
    ∧ (∀ rf, alookup w.remoteFiles sp = some rf →
      (download_file w lp sp).2 = .ok ()
      ∧ alookup (download_file w lp sp).1.localFiles lp = some ⟨w.now, rf.content⟩) := by
  obtain ⟨-, -, -, -, -, habs, hpres⟩ := download_file_spec w lp sp
  exact ⟨habs, hpres⟩

theorem c9_witness :
    ((download_file wHealthy "/tmp/z.txt" "/docs/none.txt").1.localFiles
        = wHealthy.localFiles
      ∧ ∃ e, (download_file wHealthy "/tmp/z.txt" "/docs/none.txt").2 = .error e)
    ∧ ((download_file wBoth "/tmp/a.txt" "/docs/a.txt").2 = .ok ()
      ∧ alookup (download_file wBoth "/tmp/a.txt" "/docs/a.txt").1.localFiles
          "/tmp/a.txt" = some ⟨wBoth.now, [3]⟩) :=
  ⟨(c9_download_atomicity wHealthy "/tmp/z.txt" "/docs/none.txt").1 (by decide),
   (c9_download_atomicity wBoth "/tmp/a.txt" "/docs/a.txt").2 ⟨9, [3]⟩ (by decide)⟩

/-- C10: the end-of-run metadata update only inserts or overwrites
entries: a remote path that belongs to no current pair keeps its binding
unchanged, and no existing entry is ever removed, so the store's key set
grows monotonically across `Mutate` runs. -/
theorem c10_metadata_monotone (w : World) (pairs : List (String × String))
    (files : List (String × Nat)) (q : String) :
    (q ∉ pairs.map Prod.snd →
      alookup (updateMetadataFiles w pairs files) q = alookup files q)
    ∧ (∀ t, alookup files q = some t →
      (alookup (updateMetadataFiles w pairs files) q).isSome) :=
  ⟨updateMetadataFiles_not_mem pairs w files q,
   fun t ht => updateMetadataFiles_isSome pairs w files q (by simp [ht])⟩

theorem c10_witness :
    alookup (updateMetadataFiles wHealthy [("/tmp/x.txt", "/docs/x.txt")]
        [("/old/entry.txt", 3)]) "/old/entry.txt" = alookup
        [("/old/entry.txt", 3)] "/old/entry.txt"
    ∧ (alookup (updateMetadataFiles wHealthy [("/tmp/x.txt", "/docs/x.txt")]
        [("/old/entry.txt", 3)]) "/old/entry.txt").isSome :=
  ⟨(c10_metadata_monotone wHealthy [("/tmp/x.txt", "/docs/x.txt")]
      [("/old/entry.txt", 3)] "/old/entry.txt").1 (by decide),
   (c10_metadata_monotone wHealthy [("/tmp/x.txt", "/docs/x.txt")]
      [("/old/entry.txt", 3)] "/old/entry.txt").2 3 (by decide)⟩

/-- C2 (amended): a transfer, comparison or directory-creation failure
while processing one pair is caught at the pair loop: exactly one
diagnostic is appended for the pair and the loop continues with the
remaining pairs from the pair's final world.  However, no
`Unsynchronizable` outcome is emitted for such a pair: when the local
file exists (the branches in which transfers can fail), the failing pair
emits no outcome event at all; `CantSynchronize` is emitted only by the
local-side-absent failure branches. -/
theorem c2_amended_pair_failure (w : World) (lp sp : String)
    (md : Option SyncMetadata) (rest : List (String × String)) (e : String)
    (herr : (synchronize_file w lp sp md).2.2 = .error e) :
    (synchronize_files w ((lp, sp) :: rest) md).2
      = (synchronize_file w lp sp md).2.1 ++ Msg.ShowError e
          :: (synchronize_files (synchronize_file w lp sp md).1 rest md).2
    ∧ ((synchronize_file w lp sp md).2.1 = []
        ∨ (synchronize_file w lp sp md).2.1
            = [Msg.UpdatePairSyncState lp SyncState.CantSynchronize])
    ∧ (is_local_file_exist w lp = true → (synchronize_file w lp sp md).2.1 = []) := by
  obtain ⟨-, -, -, -, -, -, ferr, floc⟩ := synchronize_file_spec w lp sp md
  refine ⟨?_, ferr e herr, fun hloc => floc hloc e herr⟩
  rw [synchronize_files_msgs_eq w lp sp rest md, herr]
  simp

theorem c2_witness :
    (synchronize_files wPutFail [("a", "b")] none).2
      = (synchronize_file wPutFail "a" "b" none).2.1 ++ Msg.ShowError "Put failed b"
          :: (synchronize_files (synchronize_file wPutFail "a" "b" none).1 [] none).2
    ∧ ((synchronize_file wPutFail "a" "b" none).2.1 = []
        ∨ (synchronize_file wPutFail "a" "b" none).2.1
            = [Msg.UpdatePairSyncState "a" SyncState.CantSynchronize])
    ∧ (is_local_file_exist wPutFail "a" = true →
        (synchronize_file wPutFail "a" "b" none).2.1 = []) :=
  c2_amended_pair_failure wPutFail "a" "b" none [] "Put failed b" (by rfl)

/-- C2 counterexample: a pair hit by a transfer failure receives the
diagnostic but no outcome event at all — in particular no
`Unsynchronizable` outcome is emitted for it. -/
theorem c2_counterexample :
    (run_sync wPutFail [("a", "b")]).2
      = [Msg.ShowError "Put failed b", Msg.StopSynchronize]
    ∧ outcomes (run_sync wPutFail [("a", "b")]).2 = [] := by
  decide

/-- C3 (amended): in a run that passes the connectivity preflight, at
most one outcome event is emitted per pair and the emitted outcome
events follow the order in which the pairs were supplied; when no
per-pair failure occurs — the pair loop emits no diagnostic, regardless
of whether the end-of-run metadata upload later fails — exactly one
outcome event is emitted per pair, in order.  (A pair whose comparison
or transfer fails emits none.) -/
theorem c3_amended_outcome_stream (w : World) (pairs : List (String × String))
    (hc : w.connOk = true) :
    ((outcomes (run_sync w pairs).2).map Prod.fst).Sublist (pairs.map Prod.fst)
    ∧ (noErrors (synchronize_files (load_metadata w).1 pairs (load_metadata w).2).2
          = true →
        outcomes (run_sync w pairs).2
          = pairs.map (fun pr => (pr.1, SyncState.Synchronized))) := by
  obtain ⟨-, tail, hmsgs, houtail, -⟩ := run_sync_parts w pairs hc
  constructor
  · rw [hmsgs, outcomes_append, houtail, List.append_nil]
    exact synchronize_files_outcomes_sublist pairs (load_metadata w).1 (load_metadata w).2
  · intro hne
    rw [hmsgs, outcomes_append, houtail, List.append_nil]
    exact synchronize_files_noerr_outcomes pairs (load_metadata w).1 (load_metadata w).2
      hne

theorem c3_witness :
    ((outcomes (run_sync wMetaPutFail [("/tmp/w.txt", "/docs/w.txt")]).2).map
        Prod.fst).Sublist ([("/tmp/w.txt", "/docs/w.txt")].map Prod.fst)
    ∧ outcomes (run_sync wMetaPutFail [("/tmp/w.txt", "/docs/w.txt")]).2
        = [("/tmp/w.txt", "/docs/w.txt")].map (fun pr => (pr.1, SyncState.Synchronized)) :=
  ⟨(c3_amended_outcome_stream wMetaPutFail [("/tmp/w.txt", "/docs/w.txt")] rfl).1,
   (c3_amended_outcome_stream wMetaPutFail [("/tmp/w.txt", "/docs/w.txt")] rfl).2
      (by decide)⟩

/-- C3 counterexample: a run over one supplied pair whose transfer fails
emits zero outcome events — refuting "exactly one SyncOutcome event per
pair". -/
theorem c3_counterexample :
    outcomes (run_sync wPutFail3 [("e", "f")]).2 = []
    ∧ [("e", "f")].length = 1 := by
  decide

/-- C6 (amended): if the first `Mutate` run completes without any
failure (every pair ends `Synchronized`), the pair paths are distinct,
no pair uses the metadata blob's remote path, and the metadata upload is
permitted, then the immediately following `Mutate` run yields
`Synchronized` for every pair and performs no upload or download of pair
content: the only requests of the second run are the metadata blob's own
GET and PUT. -/
theorem c6_amended_idempotence (w : World) (pairs : List (String × String))
    (hc : w.connOk = true)
    (hnf : (pairs.map Prod.fst).Nodup)
    (hns : (pairs.map Prod.snd).Nodup)
    (hmeta : METADATA_FILENAME ∉ pairs.map Prod.snd)
    (hput : METADATA_FILENAME ∉ w.putDenied)
    (hnoerr : noErrors (run_sync w pairs).2 = true) :
    outcomes (run_sync (run_sync w pairs).1 pairs).2
      = pairs.map (fun pr => (pr.1, SyncState.Synchronized))
    ∧ (run_sync (run_sync w pairs).1 pairs).1.trace
      = (run_sync w pairs).1.trace
        ++ [Op.Get METADATA_FILENAME, Op.Put METADATA_FILENAME] := by
  obtain ⟨hrun1w, tail, hmsgs1, -, hnetrans⟩ := run_sync_parts w pairs hc
  have hnoerrS : noErrors
      (synchronize_files (load_metadata w).1 pairs (load_metadata w).2).2 = true :=
    hnetrans hnoerr
  obtain ⟨hLlf, hLrf, hLrd, hLbase, hLtr⟩ := load_metadata_state w
  obtain ⟨hSbase, hSlp, hSrp, hSdm⟩ :=
    synchronize_files_state pairs (load_metadata w).1 (load_metadata w).2
  have hputS : METADATA_FILENAME ∉
      (synchronize_files (load_metadata w).1 pairs (load_metadata w).2).1.putDenied := by
    rw [hSbase.2.2.2.1, hLbase.2.2.2.1]
    exact hput
  obtain ⟨hsvok, hsvlook, hsvlf, hsvbase, hsvne, hsvrd, hsvtr⟩ :=
    save_spec (synchronize_files (load_metadata w).1 pairs (load_metadata w).2).1
      pairs (load_metadata w).2 hputS
  have hpost := synchronize_files_noerr_post pairs (load_metadata w).1
    (load_metadata w).2 hnf hns hnoerrS
  have hc1 : (save_and_upload_metadata
      (synchronize_files (load_metadata w).1 pairs (load_metadata w).2).1
      pairs (load_metadata w).2).1.connOk = true := by
    rw [hsvbase.1, hSbase.1, hLbase.1]
    exact hc
  have hld2val : (load_metadata (save_and_upload_metadata
      (synchronize_files (load_metadata w).1 pairs (load_metadata w).2).1
      pairs (load_metadata w).2).1).2
      = some ⟨updateMetadataFiles
          (synchronize_files (load_metadata w).1 pairs (load_metadata w).2).1
          pairs (((load_metadata w).2).getD ⟨[]⟩).files⟩ := by
    rw [load_metadata_val _ _ hsvlook]
    exact decodeMetadata_encodeMetadata _
  obtain ⟨hL2lf, hL2rf, hL2rd, hL2base, hL2tr⟩ :=
    load_metadata_state (save_and_upload_metadata
      (synchronize_files (load_metadata w).1 pairs (load_metadata w).2).1
      pairs (load_metadata w).2).1
  have hins : InSyncAll (load_metadata (save_and_upload_metadata
      (synchronize_files (load_metadata w).1 pairs (load_metadata w).2).1
      pairs (load_metadata w).2).1).1
      ⟨updateMetadataFiles
        (synchronize_files (load_metadata w).1 pairs (load_metadata w).2).1
        pairs (((load_metadata w).2).getD ⟨[]⟩).files⟩ pairs := by
    intro pr hpr
    obtain ⟨hsome, hrem⟩ := hpost pr hpr
    obtain ⟨lf, hlf⟩ := Option.isSome_iff_exists.mp hsome
    refine ⟨lf, ?_, ?_, ?_⟩
    · rw [hL2lf, hsvlf]
      exact hlf
    · have hne : pr.2 ≠ METADATA_FILENAME := by
        intro hcontra
        exact hmeta (by rw [← hcontra]; exact List.mem_map_of_mem Prod.snd hpr)
      rcases Bool.or_eq_true .. |>.mp hrem with hfile | hdir
      · simp only [is_remote_file_exist]
        rw [Bool.or_eq_true]
        refine Or.inl ?_
        rw [hL2rf, hsvne pr.2 hne]
        exact hfile
      · simp only [is_remote_file_exist]
        rw [Bool.or_eq_true]
        refine Or.inr ?_
        rw [hL2rd, hsvrd]
        exact hdir
    · exact updateMetadataFiles_mem pairs _ _ hns pr hpr lf hlf
  have hS2 : synchronize_files (load_metadata (save_and_upload_metadata
      (synchronize_files (load_metadata w).1 pairs (load_metadata w).2).1
      pairs (load_metadata w).2).1).1 pairs
      (load_metadata (save_and_upload_metadata
        (synchronize_files (load_metadata w).1 pairs (load_metadata w).2).1
        pairs (load_metadata w).2).1).2
      = ((load_metadata (save_and_upload_metadata
          (synchronize_files (load_metadata w).1 pairs (load_metadata w).2).1
          pairs (load_metadata w).2).1).1,
         pairs.map fun pr => Msg.UpdatePairSyncState pr.1 SyncState.Synchronized) := by
    rw [hld2val]
    exact synchronize_files_insync pairs _ _ hins
  have hS2w : (synchronize_files (load_metadata (save_and_upload_metadata
      (synchronize_files (load_metadata w).1 pairs (load_metadata w).2).1
      pairs (load_metadata w).2).1).1 pairs
      (load_metadata (save_and_upload_metadata
        (synchronize_files (load_metadata w).1 pairs (load_metadata w).2).1
        pairs (load_metadata w).2).1).2).1
      = (load_metadata (save_and_upload_metadata
          (synchronize_files (load_metadata w).1 pairs (load_metadata w).2).1
          pairs (load_metadata w).2).1).1 := by
    rw [hS2]
  have hS2m : (synchronize_files (load_metadata (save_and_upload_metadata
      (synchronize_files (load_metadata w).1 pairs (load_metadata w).2).1
      pairs (load_metadata w).2).1).1 pairs
      (load_metadata (save_and_upload_metadata
        (synchronize_files (load_metadata w).1 pairs (load_metadata w).2).1
        pairs (load_metadata w).2).1).2).2
      = pairs.map fun pr => Msg.UpdatePairSyncState pr.1 SyncState.Synchronized := by
    rw [hS2]
  obtain ⟨hrun2w, tail2, hmsgs2, houtail2, -⟩ :=
    run_sync_parts (save_and_upload_metadata
      (synchronize_files (load_metadata w).1 pairs (load_metadata w).2).1
      pairs (load_metadata w).2).1 pairs hc1
  have hputL2 : METADATA_FILENAME ∉ (load_metadata (save_and_upload_metadata
      (synchronize_files (load_metadata w).1 pairs (load_metadata w).2).1
      pairs (load_metadata w).2).1).1.putDenied := by
    rw [hL2base.2.2.2.1, hsvbase.2.2.2.1, hSbase.2.2.2.1, hLbase.2.2.2.1]
    exact hput
  constructor
  · rw [hrun1w, hmsgs2, outcomes_append, houtail2, List.append_nil, hS2m]
    exact outcomes_updates pairs SyncState.Synchronized
  · rw [hrun1w, hrun2w, hS2w]
    obtain ⟨-, -, -, -, -, -, htr2⟩ :=
      save_spec (load_metadata (save_and_upload_metadata
        (synchronize_files (load_metadata w).1 pairs (load_metadata w).2).1
        pairs (load_metadata w).2).1).1 pairs
        (load_metadata (save_and_upload_metadata
          (synchronize_files (load_metadata w).1 pairs (load_metadata w).2).1
          pairs (load_metadata w).2).1).2 hputL2
    rw [htr2, hL2tr, List.append_assoc]
    rfl

theorem c6_witness :
    outcomes (run_sync (run_sync wHealthy [("/tmp/x.txt", "/docs/x.txt")]).1
        [("/tmp/x.txt", "/docs/x.txt")]).2
      = [("/tmp/x.txt", "/docs/x.txt")].map (fun pr => (pr.1, SyncState.Synchronized))
    ∧ (run_sync (run_sync wHealthy [("/tmp/x.txt", "/docs/x.txt")]).1
        [("/tmp/x.txt", "/docs/x.txt")]).1.trace
      = (run_sync wHealthy [("/tmp/x.txt", "/docs/x.txt")]).1.trace
        ++ [Op.Get METADATA_FILENAME, Op.Put METADATA_FILENAME] :=
  c6_amended_idempotence wHealthy [("/tmp/x.txt", "/docs/x.txt")] rfl
    (by decide) (by decide) (by decide) (by decide) (by decide)

/-- C6 counterexample: a pair of which neither side exists ends
`CantSynchronize` — not `Synchronized` — on the second of two
back-to-back `Mutate` runs with no intervening changes, refuting
"Synchronized for every pair on the second run". -/
theorem c6_counterexample :
    outcomes (run_sync (run_sync wNeither [("p", "q")]).1 [("p", "q")]).2
      = [("p", SyncState.CantSynchronize)] := by
  decide

end FileSync
